import Mathlib

/-!
Shallow embedding of the multi-clock temporal analytics core of the
home-automation user-control dashboard, together with proofs about it.

Conventions used throughout:
* JavaScript numbers that the source only ever uses at integer values
  (timestamps in ms, bucket ids, state indices, array indices) are embedded
  as `Int`.  For a positive divisor, JavaScript `Math.floor(x / y)` agrees
  with Lean's `Int` division `/` (Euclidean division rounds like floor for
  positive divisors) and JavaScript `%` on non-negative operands agrees
  with `Int.emod`.
* JavaScript numbers that can be fractional (slider values, solar
  milliseconds-into-day after adding a fractional longitude offset) are
  embedded as `ℚ`; all literals appearing in those code paths (0.25,
  0.125, ...) are dyadic rationals, which IEEE doubles represent exactly,
  so the float comparisons of the source are exact and `ℚ` is a faithful
  model of them.
* Functions that `throw` in the source return `Except String α`; a clock
  mapping that can be legitimately undefined returns `Option` inside the
  success case, so "undefined" and "error" stay distinct, as in the source.
-/

/-! ### Time-of-week bucket constants (src/packages/core/src/time/constants.ts) -/

def BUCKET_MINUTES : Int := 5

def BUCKETS_PER_DAY : Int := 288

def BUCKETS_PER_WEEK : Int := 2016

def MIN_BUCKET_ID : Int := 0

def MAX_BUCKET_ID : Int := 2015

/-! ### Bucket arithmetic (src/unnamed/part_003, time/bucket.ts) -/

/-- Result of converting a bucketId to day and minute information. -/
structure BucketDayAndMinutes where
  dayOfWeek : Int
  startMinute : Int
  endMinute : Int
deriving DecidableEq

/-- `bucketIdToDayAndMinutes` from time/bucket.ts: converts a bucket ID to
day of week and minute range, throwing on an out-of-range id. -/
def bucketIdToDayAndMinutes (bucketId : Int) : Except String BucketDayAndMinutes :=
  if bucketId < MIN_BUCKET_ID ∨ bucketId > MAX_BUCKET_ID then
    .error "bucketId must be an integer in range"
  else
    let dayOfWeek := bucketId / BUCKETS_PER_DAY
    let bucketInDay := bucketId % BUCKETS_PER_DAY
    let startMinute := bucketInDay * BUCKET_MINUTES
    .ok { dayOfWeek := dayOfWeek, startMinute := startMinute,
          endMinute := startMinute + BUCKET_MINUTES }

/-- `dayAndMinutesToBucketId` from time/bucket.ts: converts day of week and
minutes into the day to a bucket ID, throwing on out-of-range input. -/
def dayAndMinutesToBucketId (dayOfWeek minutesIntoDay : Int) : Except String Int :=
  if dayOfWeek < 0 ∨ dayOfWeek > 6 then
    .error "dayOfWeek must be an integer in range"
  else if minutesIntoDay < 0 ∨ minutesIntoDay > 1439 then
    .error "minutesIntoDay must be an integer in range"
  else
    .ok (dayOfWeek * BUCKETS_PER_DAY + minutesIntoDay / BUCKET_MINUTES)

/-- `cyclicDistance` from time/bucket.ts: signed cyclic distance between two
bucket IDs on the 2016-bucket week cycle. -/
def cyclicDistance (bucketId1 bucketId2 : Int) : Except String Int :=
  if bucketId1 < MIN_BUCKET_ID ∨ bucketId1 > MAX_BUCKET_ID then
    .error "bucketId1 must be an integer in range"
  else if bucketId2 < MIN_BUCKET_ID ∨ bucketId2 > MAX_BUCKET_ID then
    .error "bucketId2 must be an integer in range"
  else if bucketId1 = bucketId2 then
    .ok 0
  else
    let diff := bucketId2 - bucketId1
    let halfWeek := BUCKETS_PER_WEEK / 2
    if diff > halfWeek then
      .ok (diff - BUCKETS_PER_WEEK)
    else if diff < -halfWeek then
      .ok (diff + BUCKETS_PER_WEEK)
    else
      .ok diff

/-! ### Dense array index math (src/packages/core/src/analytics/denseArray) -/

def NUM_CLOCKS : Int := 5

def VALUES_PER_BUCKET_GROUP : Int := BUCKETS_PER_WEEK * NUM_CLOCKS

/-- `getArraySize`: total dense-array size for a control with N states. -/
def getArraySize (numStates : Int) : Int :=
  numStates * numStates * VALUES_PER_BUCKET_GROUP

/-- `holdIndex`: index of a holding-time value.  The source performs no
validation here; it computes the linear formula for whatever inputs it is
handed. -/
def holdIndex (state clock bucket : Int) : Int :=
  state * VALUES_PER_BUCKET_GROUP + clock * BUCKETS_PER_WEEK + bucket

/-- `offsetWithinFromBlock`: offset of a transition inside its from-state
block. -/
def offsetWithinFromBlock (fromState toState : Int) : Int :=
  if toState < fromState then toState else toState - 1

/-- `transGroupIndex`: dense enumeration index of the ordered pair
(fromState, toState); throws on self-transitions and out-of-range states. -/
def transGroupIndex (fromState toState numStates : Int) : Except String Int :=
  if fromState = toState then
    .error "Self-transitions are not stored"
  else if fromState < 0 ∨ fromState ≥ numStates ∨ toState < 0 ∨ toState ≥ numStates then
    .error "Invalid state indices"
  else
    .ok (fromState * (numStates - 1) + offsetWithinFromBlock fromState toState)

/-- `transIndex`: index of a transition-count value.  Validation happens only
through the embedded `transGroupIndex` call; clock and bucket are not
checked, exactly as in the source. -/
def transIndex (fromState toState clock bucket numStates : Int) : Except String Int :=
  match transGroupIndex fromState toState numStates with
  | .error e => .error e
  | .ok groupIndex =>
      .ok (numStates * VALUES_PER_BUCKET_GROUP + groupIndex * VALUES_PER_BUCKET_GROUP
            + clock * BUCKETS_PER_WEEK + bucket)

/-- `validateArraySize`: true iff the array length matches `getArraySize`. -/
def validateArraySize (arrayLength numStates : Int) : Bool :=
  arrayLength = getArraySize numStates

/-! Spec-side index formulas, written from the specification text of §4.4,
for the refinement comparison of claim C3.  They are deliberately separate
definitions from the source-derived ones above. -/

/-- Modelled from the spec: `holdIndex(s,c,b) = s×10080 + c×2016 + b`. -/
def specHoldIndex (s c b : Int) : Int := s * 10080 + c * 2016 + b

/-- Modelled from the spec: `offset = to if to<from else to−1`;
result `= from×(N−1) + offset`. -/
def specTransGroupIndex (fromState toState n : Int) : Int :=
  fromState * (n - 1) + (if toState < fromState then toState else toState - 1)

/-- Modelled from the spec:
`transIndex(from,to,c,b,N) = N×10080 + transGroupIndex(from,to,N)×10080 + c×2016 + b`. -/
def specTransIndex (fromState toState c b n : Int) : Int :=
  n * 10080 + specTransGroupIndex fromState toState n * 10080 + c * 2016 + b

/-! ### Slider discretization (src/packages/core/src/domain/slider.ts) -/

/-- Policy for handling boundary values when discretizing sliders. -/
inductive SliderBoundaryPolicy where
  | roundDown
  | roundUp
  | roundNearest
  | roundNearestTiesUp
deriving DecidableEq

/-- `getStateCenter`: center value of a discrete state, used for rounding. -/
def getStateCenter (state : Int) : Except String ℚ :=
  if state = 0 then .ok 0
  else if state = 1 then .ok (1/8)
  else if state = 2 then .ok (3/8)
  else if state = 3 then .ok (5/8)
  else if state = 4 then .ok (7/8)
  else if state = 5 then .ok 1
  else .error "Invalid state"

/-- `handleBoundary`: boundary value rounding according to the policy. -/
def handleBoundary (value : ℚ) (lowerState higherState : Int)
    (policy : SliderBoundaryPolicy) : Except String Int :=
  match policy with
  | .roundDown => .ok lowerState
  | .roundUp => .ok higherState
  | .roundNearest =>
    match getStateCenter lowerState, getStateCenter higherState with
    | .error e, _ => .error e
    | _, .error e => .error e
    | .ok lowerCenter, .ok higherCenter =>
      let distToLower := |value - lowerCenter|
      let distToHigher := |value - higherCenter|
      if distToLower < distToHigher then .ok lowerState
      else if distToHigher < distToLower then .ok higherState
      else .ok lowerState
  | .roundNearestTiesUp =>
    match getStateCenter lowerState, getStateCenter higherState with
    | .error e, _ => .error e
    | _, .error e => .error e
    | .ok lowerCenter, .ok higherCenter =>
      let distToLower := |value - lowerCenter|
      let distToHigher := |value - higherCenter|
      if distToLower < distToHigher then .ok lowerState
      else if distToHigher < distToLower then .ok higherState
      else .ok higherState

/-- `discretizeSlider`: maps a continuous slider value in [0,1] to a discrete
state in [0,5] under the given boundary policy. -/
def discretizeSlider (value01 : ℚ) (policy : SliderBoundaryPolicy) : Except String Int :=
  if value01 = 0 then .ok 0
  else if value01 = 1 then .ok 5
  else if value01 = 1/4 then handleBoundary (1/4) 1 2 policy
  else if value01 = 1/2 then handleBoundary (1/2) 2 3 policy
  else if value01 = 3/4 then handleBoundary (3/4) 3 4 policy
  else if 0 < value01 ∧ value01 < 1/4 then .ok 1
  else if 1/4 < value01 ∧ value01 < 1/2 then .ok 2
  else if 1/2 < value01 ∧ value01 < 3/4 then .ok 3
  else if 3/4 < value01 ∧ value01 < 1 then .ok 4
  else .error "Invalid slider value"

/-! ### Helper lemmas about the dense index functions -/

lemma holdIndex_eq_formula (s c b : Int) : holdIndex s c b = s * 10080 + c * 2016 + b := by
  simp only [holdIndex, VALUES_PER_BUCKET_GROUP, BUCKETS_PER_WEEK, NUM_CLOCKS]
  ring

lemma holdIndex_nonneg (s c b : Int) (hs0 : 0 ≤ s) (hc0 : 0 ≤ c) (hb0 : 0 ≤ b) :
    0 ≤ holdIndex s c b := by
  rw [holdIndex_eq_formula]
  have h1 : 0 ≤ s * 10080 := by positivity
  have h2 : 0 ≤ c * 2016 := by positivity
  linarith

lemma holdIndex_lt (s c b N : Int) (hsN : s < N) (hc : c ≤ 4) (hb : b ≤ 2015) :
    holdIndex s c b < N * 10080 := by
  rw [holdIndex_eq_formula]
  have h1 : s * 10080 ≤ (N - 1) * 10080 :=
    mul_le_mul_of_nonneg_right (by omega) (by norm_num)
  linarith

lemma transGroupIndex_eq_ok (fromState toState N : Int) (hne : fromState ≠ toState)
    (hf0 : 0 ≤ fromState) (hfN : fromState < N) (ht0 : 0 ≤ toState) (htN : toState < N) :
    transGroupIndex fromState toState N
      = .ok (fromState * (N - 1) + offsetWithinFromBlock fromState toState) := by
  simp only [transGroupIndex]
  rw [if_neg hne, if_neg (by omega)]

lemma offsetWithinFromBlock_bounds (fromState toState N : Int) (hne : fromState ≠ toState)
    (hf0 : 0 ≤ fromState) (hfN : fromState < N) (ht0 : 0 ≤ toState) (htN : toState < N) :
    0 ≤ offsetWithinFromBlock fromState toState ∧
      offsetWithinFromBlock fromState toState ≤ N - 2 := by
  simp only [offsetWithinFromBlock]
  split <;> omega

lemma transGroup_value_bounds (fromState toState N : Int) (hne : fromState ≠ toState)
    (hf0 : 0 ≤ fromState) (hfN : fromState < N) (ht0 : 0 ≤ toState) (htN : toState < N) :
    0 ≤ fromState * (N - 1) + offsetWithinFromBlock fromState toState ∧
      fromState * (N - 1) + offsetWithinFromBlock fromState toState ≤ N * (N - 1) - 1 := by
  obtain ⟨ho0, ho1⟩ := offsetWithinFromBlock_bounds fromState toState N hne hf0 hfN ht0 htN
  have hN : 2 ≤ N := by omega
  constructor
  · have : 0 ≤ fromState * (N - 1) := mul_nonneg hf0 (by omega)
    linarith
  · have h1 : fromState * (N - 1) ≤ (N - 1) * (N - 1) :=
      mul_le_mul_of_nonneg_right (by omega) (by omega)
    nlinarith

lemma transIndex_eq_ok (fromState toState c b N : Int) (hne : fromState ≠ toState)
    (hf0 : 0 ≤ fromState) (hfN : fromState < N) (ht0 : 0 ≤ toState) (htN : toState < N) :
    transIndex fromState toState c b N
      = .ok (N * 10080
              + (fromState * (N - 1) + offsetWithinFromBlock fromState toState) * 10080
              + c * 2016 + b) := by
  simp only [transIndex, transGroupIndex_eq_ok fromState toState N hne hf0 hfN ht0 htN]
  simp only [VALUES_PER_BUCKET_GROUP, BUCKETS_PER_WEEK, NUM_CLOCKS]
  norm_num

lemma transIndex_ok_bounds (fromState toState c b N i : Int) (hne : fromState ≠ toState)
    (hf0 : 0 ≤ fromState) (hfN : fromState < N) (ht0 : 0 ≤ toState) (htN : toState < N)
    (hc0 : 0 ≤ c) (hc : c ≤ 4) (hb0 : 0 ≤ b) (hb : b ≤ 2015)
    (hi : transIndex fromState toState c b N = .ok i) :
    N * 10080 ≤ i ∧ i < N * N * 10080 := by
  rw [transIndex_eq_ok fromState toState c b N hne hf0 hfN ht0 htN] at hi
  obtain ⟨hg0, hg1⟩ := transGroup_value_bounds fromState toState N hne hf0 hfN ht0 htN
  have hi' : i = N * 10080
      + (fromState * (N - 1) + offsetWithinFromBlock fromState toState) * 10080
      + c * 2016 + b := by
    injection hi with h
    omega
  subst hi'
  constructor
  · have h1 : 0 ≤ (fromState * (N - 1) + offsetWithinFromBlock fromState toState) * 10080 := by
      positivity
    linarith
  · have h1 : (fromState * (N - 1) + offsetWithinFromBlock fromState toState) * 10080
        ≤ (N * (N - 1) - 1) * 10080 :=
      mul_le_mul_of_nonneg_right hg1 (by norm_num)
    nlinarith

/-! ### Claims C3, C4, C10 about the dense index arithmetic -/

/-- Claim C3: for every numStates N in [2,10], state in [0,N−1], clock in
[0,4], bucket in [0,2015] and ordered pair fromState ≠ toState in [0,N−1],
the source index functions compute exactly the spec formulas
`holdIndex = s×10080 + c×2016 + b`,
`transGroupIndex = from×(N−1) + (to if to<from else to−1)` and
`transIndex = N×10080 + transGroupIndex×10080 + c×2016 + b`. -/
theorem claim_C3_index_layout_matches_spec (N s c b fromState toState : Int)
    (hN2 : 2 ≤ N) (hN10 : N ≤ 10) (hs0 : 0 ≤ s) (hsN : s < N)
    (hc0 : 0 ≤ c) (hc : c ≤ 4) (hb0 : 0 ≤ b) (hb : b ≤ 2015)
    (hf0 : 0 ≤ fromState) (hfN : fromState < N) (ht0 : 0 ≤ toState) (htN : toState < N)
    (hne : fromState ≠ toState) :
    holdIndex s c b = specHoldIndex s c b ∧
    transGroupIndex fromState toState N = .ok (specTransGroupIndex fromState toState N) ∧
    transIndex fromState toState c b N = .ok (specTransIndex fromState toState c b N) := by
  refine ⟨?_, ?_, ?_⟩
  · rw [holdIndex_eq_formula]; rfl
  · rw [transGroupIndex_eq_ok fromState toState N hne hf0 hfN ht0 htN]
    rfl
  · rw [transIndex_eq_ok fromState toState c b N hne hf0 hfN ht0 htN]
    simp only [specTransIndex, specTransGroupIndex, offsetWithinFromBlock]

/-- Witness for C3 at N = 6, s = 3, c = 2, b = 100, fromState = 5, toState = 2. -/
theorem claim_C3_index_layout_matches_spec_witness :
    holdIndex 3 2 100 = specHoldIndex 3 2 100 ∧
    transGroupIndex 5 2 6 = .ok (specTransGroupIndex 5 2 6) ∧
    transIndex 5 2 2 100 6 = .ok (specTransIndex 5 2 2 100 6) :=
  claim_C3_index_layout_matches_spec 6 3 2 100 5 2 (by norm_num) (by norm_num) (by norm_num)
    (by norm_num) (by norm_num) (by norm_num) (by norm_num) (by norm_num) (by norm_num)
    (by norm_num) (by norm_num) (by norm_num) (by norm_num)

/-- Claim C4 counterexample: `holdIndex` does not fail on an out-of-range
state; it silently computes the linear formula (state −1 yields −10080),
and `transIndex` accepts an out-of-range clock (9) and bucket (5000)
without any error.  This contradicts the claim that every dense index
function fails immediately on every out-of-range input. -/
theorem claim_C4_counterexample :
    holdIndex (-1) 0 0 = -10080 ∧ transIndex 0 1 9 5000 6 = .ok 83624 := by
  constructor
  · rw [holdIndex_eq_formula]; norm_num
  · rw [transIndex_eq_ok 0 1 9 5000 6 (by norm_num) (by norm_num) (by norm_num) (by norm_num)
      (by norm_num)]
    rfl

/-- Claim C4 (amended): `transGroupIndex` and `transIndex` fail with an error
exactly on a self-transition or a fromState/toState outside [0,N−1];
`holdIndex` performs no validation at all and returns the linear formula for
arbitrary inputs, and `transIndex` does not validate clock or bucket. -/
theorem claim_C4_amended_validation :
    (∀ fromState toState N : Int,
      (∃ v, transGroupIndex fromState toState N = .ok v) ↔
        (fromState ≠ toState ∧ 0 ≤ fromState ∧ fromState < N ∧ 0 ≤ toState ∧ toState < N)) ∧
    (∀ fromState toState c b N : Int,
      (∃ v, transIndex fromState toState c b N = .ok v) ↔
        (fromState ≠ toState ∧ 0 ≤ fromState ∧ fromState < N ∧ 0 ≤ toState ∧ toState < N)) ∧
    (∀ s c b : Int, holdIndex s c b = s * 10080 + c * 2016 + b) := by
  have hg : ∀ fromState toState N : Int,
      (∃ v, transGroupIndex fromState toState N = .ok v) ↔
        (fromState ≠ toState ∧ 0 ≤ fromState ∧ fromState < N ∧ 0 ≤ toState ∧ toState < N) := by
    intro fromState toState N
    constructor
    · rintro ⟨v, hv⟩
      simp only [transGroupIndex] at hv
      by_cases h1 : fromState = toState
      · rw [if_pos h1] at hv; exact absurd hv (by simp)
      · rw [if_neg h1] at hv
        by_cases h2 : fromState < 0 ∨ fromState ≥ N ∨ toState < 0 ∨ toState ≥ N
        · rw [if_pos h2] at hv; exact absurd hv (by simp)
        · push_neg at h2
          exact ⟨h1, by omega⟩
    · rintro ⟨hne, hf0, hfN, ht0, htN⟩
      exact ⟨_, transGroupIndex_eq_ok fromState toState N hne hf0 hfN ht0 htN⟩
  refine ⟨hg, ?_, holdIndex_eq_formula⟩
  intro fromState toState c b N
  constructor
  · rintro ⟨v, hv⟩
    simp only [transIndex] at hv
    rcases hgl : transGroupIndex fromState toState N with e | g
    · rw [hgl] at hv; exact absurd hv (by simp)
    · exact (hg fromState toState N).1 ⟨g, hgl⟩
  · rintro ⟨hne, hf0, hfN, ht0, htN⟩
    exact ⟨_, transIndex_eq_ok fromState toState c b N hne hf0 hfN ht0 htN⟩

/-- Claim C10: for N ≥ 2 and in-range arguments, `holdIndex` lands in
[0, N×10080), `transIndex` lands in [N×10080, N²×10080), hence both are
strictly below `getArraySize N` and a holding-time cell never aliases a
transition-count cell. -/
theorem claim_C10_index_bounds (N s c b fromState toState i : Int)
    (hN : 2 ≤ N) (hs0 : 0 ≤ s) (hsN : s < N) (hc0 : 0 ≤ c) (hc : c ≤ 4)
    (hb0 : 0 ≤ b) (hb : b ≤ 2015)
    (hf0 : 0 ≤ fromState) (hfN : fromState < N) (ht0 : 0 ≤ toState) (htN : toState < N)
    (hne : fromState ≠ toState)
    (hi : transIndex fromState toState c b N = .ok i) :
    0 ≤ holdIndex s c b ∧ holdIndex s c b < N * 10080 ∧
    N * 10080 ≤ i ∧ i < getArraySize N ∧
    getArraySize N = N * N * 10080 ∧
    holdIndex s c b ≠ i := by
  have hsize : getArraySize N = N * N * 10080 := by
    simp only [getArraySize, VALUES_PER_BUCKET_GROUP, BUCKETS_PER_WEEK, NUM_CLOCKS]
    norm_num
  obtain ⟨hti1, hti2⟩ := transIndex_ok_bounds fromState toState c b N i hne hf0 hfN ht0 htN
    hc0 hc hb0 hb hi
  have hh0 := holdIndex_nonneg s c b hs0 hc0 hb0
  have hh1 := holdIndex_lt s c b N hsN hc hb
  exact ⟨hh0, hh1, hti1, by omega, hsize, by omega⟩

/-- Witness for C10 at N = 6, s = 5, c = 4, b = 2015, fromState = 5, toState = 4. -/
theorem claim_C10_index_bounds_witness :
    0 ≤ holdIndex 5 4 2015 ∧ holdIndex 5 4 2015 < (6 : Int) * 10080 ∧
    (6 : Int) * 10080 ≤ 362879 ∧ (362879 : Int) < getArraySize 6 ∧
    getArraySize 6 = 6 * 6 * 10080 ∧
    holdIndex 5 4 2015 ≠ 362879 :=
  claim_C10_index_bounds 6 5 4 2015 5 4 362879 (by norm_num) (by norm_num) (by norm_num)
    (by norm_num) (by norm_num) (by norm_num) (by norm_num) (by norm_num) (by norm_num)
    (by norm_num) (by norm_num) (by norm_num)
    (by rw [transIndex_eq_ok 5 4 4 2015 6 (by norm_num) (by norm_num) (by norm_num)
      (by norm_num) (by norm_num)]; rfl)

/-! ### Claim C5 about cyclicDistance at the half-cycle boundary -/

/-- Claim C5 counterexample: the bucket pair a = 1008, b = 0 is exactly half a
cycle apart ((b − a) mod 2016 = 1008), yet `cyclicDistance 1008 0` returns
−1008, not +1008: the raw difference −1008 is not renormalized upward. -/
theorem claim_C5_counterexample :
    cyclicDistance 1008 0 = .ok (-1008) ∧
    ((0 : Int) - 1008) % 2016 = 1008 ∧ ((-1008 : Int)) ≠ 1008 := by
  refine ⟨?_, by decide, by decide⟩
  simp only [cyclicDistance, MIN_BUCKET_ID, MAX_BUCKET_ID, BUCKETS_PER_WEEK]
  norm_num

/-- Claim C5 (amended): for valid bucket ids exactly half a cycle apart,
`cyclicDistance a b` returns the raw difference b − a unchanged: +1008 when
b − a = 1008 (the raw value +1008 is never renormalized to −1008) and −1008
when b − a = −1008. -/
theorem claim_C5_amended_half_cycle (a b : Int)
    (ha0 : 0 ≤ a) (ha : a ≤ 2015) (hb0 : 0 ≤ b) (hb : b ≤ 2015)
    (hhalf : (b - a) % 2016 = 1008) :
    cyclicDistance a b = .ok (b - a) ∧ (b - a = 1008 ∨ b - a = -1008) := by
  have hcase : b - a = 1008 ∨ b - a = -1008 := by omega
  have hne : ¬ a = b := by omega
  refine ⟨?_, hcase⟩
  simp only [cyclicDistance, MIN_BUCKET_ID, MAX_BUCKET_ID, BUCKETS_PER_WEEK]
  rw [if_neg (by omega), if_neg (by omega), if_neg hne, if_neg (by omega), if_neg (by omega)]

/-- Witness for C5 (amended) at a = 0, b = 1008. -/
theorem claim_C5_amended_half_cycle_witness :
    cyclicDistance 0 1008 = .ok (1008 - 0) ∧
    ((1008 : Int) - 0 = 1008 ∨ (1008 : Int) - 0 = -1008) :=
  claim_C5_amended_half_cycle 0 1008 (by norm_num) (by norm_num) (by norm_num) (by norm_num)
    (by decide)

/-! ### Claim C9: bucket round trip -/

/-- Claim C9: for every dayOfWeek in [0,6] and minuteOfDay in [0,1439],
converting to a bucket and back yields a bucket whose minute range contains
the input minute and whose dayOfWeek equals the input dayOfWeek. -/
theorem claim_C9_bucket_roundtrip (dayOfWeek minutesIntoDay : Int)
    (hd0 : 0 ≤ dayOfWeek) (hd : dayOfWeek ≤ 6)
    (hm0 : 0 ≤ minutesIntoDay) (hm : minutesIntoDay ≤ 1439) :
    ∃ b r, dayAndMinutesToBucketId dayOfWeek minutesIntoDay = .ok b ∧
      bucketIdToDayAndMinutes b = .ok r ∧
      r.startMinute ≤ minutesIntoDay ∧ minutesIntoDay < r.endMinute ∧
      r.dayOfWeek = dayOfWeek := by
  refine ⟨dayOfWeek * 288 + minutesIntoDay / 5,
    { dayOfWeek := (dayOfWeek * 288 + minutesIntoDay / 5) / 288,
      startMinute := ((dayOfWeek * 288 + minutesIntoDay / 5) % 288) * 5,
      endMinute := ((dayOfWeek * 288 + minutesIntoDay / 5) % 288) * 5 + 5 }, ?_, ?_, ?_, ?_, ?_⟩
  · simp only [dayAndMinutesToBucketId, BUCKETS_PER_DAY, BUCKET_MINUTES]
    rw [if_neg (by omega), if_neg (by omega)]
  · simp only [bucketIdToDayAndMinutes, MIN_BUCKET_ID, MAX_BUCKET_ID, BUCKETS_PER_DAY,
      BUCKET_MINUTES]
    rw [if_neg (by omega)]
  · simp only
    omega
  · simp only
    omega
  · simp only
    omega

/-- Witness for C9 at dayOfWeek = 2, minutesIntoDay = 720. -/
theorem claim_C9_bucket_roundtrip_witness :
    ∃ b r, dayAndMinutesToBucketId 2 720 = .ok b ∧
      bucketIdToDayAndMinutes b = .ok r ∧
      r.startMinute ≤ 720 ∧ (720 : Int) < r.endMinute ∧ r.dayOfWeek = 2 :=
  claim_C9_bucket_roundtrip 2 720 (by norm_num) (by norm_num) (by norm_num) (by norm_num)

/-! ### Claim C7: slider discretization -/

/-- Claim C7: `discretizeSlider` maps 0 to state 0 and 1 to state 5 under
every policy; maps the open quartile interiors to states 1–4 under every
policy; and at the exact boundaries .25, .5, .75 returns the lower adjacent
state for roundDown and roundNearest (tie resolved down) and the higher for
roundUp and roundNearestTiesUp (tie resolved up). -/
theorem claim_C7_slider_discretization (v : ℚ) (p : SliderBoundaryPolicy) :
    discretizeSlider 0 p = .ok 0 ∧
    discretizeSlider 1 p = .ok 5 ∧
    (0 < v → v < 1/4 → discretizeSlider v p = .ok 1) ∧
    (1/4 < v → v < 1/2 → discretizeSlider v p = .ok 2) ∧
    (1/2 < v → v < 3/4 → discretizeSlider v p = .ok 3) ∧
    (3/4 < v → v < 1 → discretizeSlider v p = .ok 4) ∧
    discretizeSlider (1/4) .roundDown = .ok 1 ∧
    discretizeSlider (1/4) .roundUp = .ok 2 ∧
    discretizeSlider (1/4) .roundNearest = .ok 1 ∧
    discretizeSlider (1/4) .roundNearestTiesUp = .ok 2 ∧
    discretizeSlider (1/2) .roundDown = .ok 2 ∧
    discretizeSlider (1/2) .roundUp = .ok 3 ∧
    discretizeSlider (1/2) .roundNearest = .ok 2 ∧
    discretizeSlider (1/2) .roundNearestTiesUp = .ok 3 ∧
    discretizeSlider (3/4) .roundDown = .ok 3 ∧
    discretizeSlider (3/4) .roundUp = .ok 4 ∧
    discretizeSlider (3/4) .roundNearest = .ok 3 ∧
    discretizeSlider (3/4) .roundNearestTiesUp = .ok 4 := by
  refine ⟨?_, ?_, ?_, ?_, ?_, ?_,
    by norm_num [discretizeSlider, handleBoundary, getStateCenter],
    by norm_num [discretizeSlider, handleBoundary, getStateCenter],
    by norm_num [discretizeSlider, handleBoundary, getStateCenter],
    by norm_num [discretizeSlider, handleBoundary, getStateCenter],
    by norm_num [discretizeSlider, handleBoundary, getStateCenter],
    by norm_num [discretizeSlider, handleBoundary, getStateCenter],
    by norm_num [discretizeSlider, handleBoundary, getStateCenter],
    by norm_num [discretizeSlider, handleBoundary, getStateCenter],
    by norm_num [discretizeSlider, handleBoundary, getStateCenter],
    by norm_num [discretizeSlider, handleBoundary, getStateCenter],
    by norm_num [discretizeSlider, handleBoundary, getStateCenter],
    by norm_num [discretizeSlider, handleBoundary, getStateCenter]⟩
  · simp [discretizeSlider]
  · norm_num [discretizeSlider]
  · intro h1 h2
    simp only [discretizeSlider]
    rw [if_neg (by linarith), if_neg (by linarith), if_neg (by linarith),
      if_neg (by linarith), if_neg (by linarith), if_pos ⟨h1, h2⟩]
  · intro h1 h2
    simp only [discretizeSlider]
    rw [if_neg (by linarith), if_neg (by linarith), if_neg (by linarith),
      if_neg (by linarith), if_neg (by linarith),
      if_neg (by rintro ⟨hx, hy⟩; linarith), if_pos ⟨h1, h2⟩]
  · intro h1 h2
    simp only [discretizeSlider]
    rw [if_neg (by linarith), if_neg (by linarith), if_neg (by linarith),
      if_neg (by linarith), if_neg (by linarith),
      if_neg (by rintro ⟨hx, hy⟩; linarith), if_neg (by rintro ⟨hx, hy⟩; linarith),
      if_pos ⟨h1, h2⟩]
  · intro h1 h2
    simp only [discretizeSlider]
    rw [if_neg (by linarith), if_neg (by linarith), if_neg (by linarith),
      if_neg (by linarith), if_neg (by linarith),
      if_neg (by rintro ⟨hx, hy⟩; linarith), if_neg (by rintro ⟨hx, hy⟩; linarith),
      if_neg (by rintro ⟨hx, hy⟩; linarith), if_pos ⟨h1, h2⟩]

/-- Witness for C7 at v = 1/8 under roundDown: the interior of the first
open quartile maps to state 1. -/
theorem claim_C7_slider_discretization_witness :
    discretizeSlider (1/8) .roundDown = .ok 1 :=
  (claim_C7_slider_discretization (1/8) .roundDown).2.2.1 (by norm_num) (by norm_num)

/-! ### Interval splitter (src/unnamed/part_005, measurement/splitHoldInterval.ts)

The splitter interacts with the clock layer only through
`mapTimestampToBucket(clockId, tsMs, config)`; we embed that dependency as
an abstract mapping function `f : Int → Option Int` (the partial map from
timestamps to bucket ids induced by one clock and one configuration), so
theorems quantified over `f` cover every clock id and configuration.

The source's loops are guarded by hard time caps (10 simulated minutes for
the uniform boundary search, 24 simulated hours for the undefined-region
searches and the unequal-hours boundary search); each loop advances its
search position by a fixed positive step, so the number of iterations is
bounded.  We realize each loop by structural recursion on a fuel argument
chosen at least as large as the iteration bound implied by the source's own
cap, so the fuel never runs out before the source's guard stops the loop;
the fuel-exhausted branch returns the same value as the guard-exit branch. -/

/-- The five clock identifiers ('local' is `localTime` here since `local` is
reserved in Lean). -/
inductive ClockId where
  | utc
  | localTime
  | meanSolar
  | apparentSolar
  | unequalHours
deriving DecidableEq

/-- Abstract clock mapping: `fun t => mapTimestampToBucket clockId t config`. -/
abbrev ClockMap := Int → Option Int

/-- The JavaScript `Map<number, number>` accumulator of the splitter,
embedded as an association list (insertion order preserved, keys unique). -/
abbrev AllocMap := List (Int × Int)

/-- `result.get(bucket) || 0`. -/
def mapGetD (m : AllocMap) (k : Int) : Int :=
  match m with
  | [] => 0
  | (k2, v) :: rest => if k2 = k then v else mapGetD rest k

/-- `result.set(bucket, v)`: replace the entry for `k` or append a new one. -/
def mapSet (m : AllocMap) (k v : Int) : AllocMap :=
  match m with
  | [] => [(k, v)]
  | (k2, v2) :: rest => if k2 = k then (k2, v) :: rest else (k2, v2) :: mapSet rest k v

/-- `result.set(bucket, (result.get(bucket) || 0) + allocatedMs)`. -/
def mapAdd (m : AllocMap) (k v : Int) : AllocMap :=
  mapSet m k (mapGetD m k + v)

/-- Sum of all allocated values in the mapping. -/
def allocSum (m : AllocMap) : Int :=
  (m.map Prod.snd).sum

/-- `refineBucketBoundary`: binary search for the exact bucket boundary
between `lowMs` and `highMs`, to millisecond precision.  Fuel
`(highMs − lowMs).toNat` dominates the number of halvings. -/
def refineBucketBoundary (fuel : Nat) (lowMs highMs : Int) (currentBucket : Int)
    (f : ClockMap) (maxTime : Int) : Int :=
  match fuel with
  | 0 => min highMs maxTime
  | fuel + 1 =>
    if highMs - lowMs > 1 then
      if f ((lowMs + highMs) / 2) = some currentBucket then
        refineBucketBoundary fuel ((lowMs + highMs) / 2) highMs currentBucket f maxTime
      else
        refineBucketBoundary fuel lowMs ((lowMs + highMs) / 2) currentBucket f maxTime
    else
      min highMs maxTime

/-- Loop body of `findUniformBucketEnd`: step forward by 30 seconds, capped
at `maxTime`, until the mapped bucket changes or becomes undefined; the
source caps the walk at `tsMs + 2 × 300000` simulated ms. -/
def findUniformBucketEndLoop (fuel : Nat) (f : ClockMap) (tsMs currentBucket maxTime : Int)
    (searchTime : Int) : Option Int :=
  match fuel with
  | 0 => some maxTime
  | fuel + 1 =>
    if searchTime < maxTime ∧ searchTime < tsMs + 600000 then
      match f (min (searchTime + 30000) maxTime) with
      | none => none
      | some testBucket =>
        if testBucket ≠ currentBucket then
          some (refineBucketBoundary (min (searchTime + 30000) maxTime - searchTime).toNat
            searchTime (min (searchTime + 30000) maxTime) currentBucket f maxTime)
        else
          findUniformBucketEndLoop fuel f tsMs currentBucket maxTime
            (min (searchTime + 30000) maxTime)
    else
      some maxTime

/-- `findUniformBucketEnd`: end of the current bucket for the four uniform
clocks. -/
def findUniformBucketEnd (f : ClockMap) (tsMs currentBucket maxTime : Int) : Option Int :=
  findUniformBucketEndLoop 601000 f tsMs currentBucket maxTime tsMs

/-- Loop body of `findUnequalHoursBucketEnd`: adaptive stepping (1-second
steps, widened to 1-minute steps after 60 consecutive same-bucket checks),
capped at `min maxTime (tsMs + 24h)`. -/
def findUnequalHoursBucketEndLoop (fuel : Nat) (f : ClockMap)
    (currentBucket maxTime highMs : Int) (searchTime initialStep : Int)
    (consecutiveSameBucket : Nat) : Option Int :=
  match fuel with
  | 0 => some maxTime
  | fuel + 1 =>
    if searchTime < highMs then
      match f (min (searchTime + initialStep) highMs) with
      | none => none
      | some testBucket =>
        if testBucket ≠ currentBucket then
          some (refineBucketBoundary (min (searchTime + initialStep) highMs - searchTime).toNat
            searchTime (min (searchTime + initialStep) highMs) currentBucket f maxTime)
        else
          findUnequalHoursBucketEndLoop fuel f currentBucket maxTime highMs
            (min (searchTime + initialStep) highMs)
            (if consecutiveSameBucket + 1 > 60 ∧ initialStep < 60000 then 60000
             else initialStep)
            (consecutiveSameBucket + 1)
    else
      some maxTime

/-- `findUnequalHoursBucketEnd`: end of the current unequal-hours bucket. -/
def findUnequalHoursBucketEnd (f : ClockMap) (tsMs currentBucket maxTime : Int) : Option Int :=
  findUnequalHoursBucketEndLoop 86400001 f currentBucket maxTime
    (min maxTime (tsMs + 24 * 3600000)) tsMs 1000 0

/-- Dispatch between the two bucket-end searches exactly as the splitter's
main loop does on `clockId === 'unequalHours'`. -/
def bucketEndTimeFor (clockId : ClockId) (f : ClockMap) (tsMs currentBucket maxTime : Int) :
    Option Int :=
  if clockId = ClockId.unequalHours then
    findUnequalHoursBucketEnd f tsMs currentBucket maxTime
  else
    findUniformBucketEnd f tsMs currentBucket maxTime

/-- The splitter's first undefined-region search: 1-minute steps, bounded by
`t1Ms` and by 24 simulated hours from `currentTime`. -/
def searchDefinedCoarse (fuel : Nat) (f : ClockMap) (currentTime maxSearch : Int)
    (searchTime : Int) : Option Int :=
  match fuel with
  | 0 => none
  | fuel + 1 =>
    if searchTime < maxSearch ∧ searchTime < currentTime + 24 * 3600000 then
      match f (searchTime + 60000) with
      | some _ => some (searchTime + 60000)
      | none => searchDefinedCoarse fuel f currentTime maxSearch (searchTime + 60000)
    else
      none

/-- The splitter's finer-grained recovery search after a bucket-end search
entered an undefined region: 1-second steps, re-checking the bucket end at
each defined position, bounded by `t1Ms` and by 24 simulated hours. -/
def searchDefinedFine (fuel : Nat) (clockId : ClockId) (f : ClockMap)
    (t1Ms startSearchTime : Int) (searchTime : Int) : Option Int :=
  match fuel with
  | 0 => none
  | fuel + 1 =>
    if searchTime < t1Ms ∧ searchTime < startSearchTime + 24 * 3600000 then
      match f (searchTime + 1000) with
      | none => searchDefinedFine fuel clockId f t1Ms startSearchTime (searchTime + 1000)
      | some testBucket =>
        match bucketEndTimeFor clockId f (searchTime + 1000) testBucket t1Ms with
        | some _ => some (searchTime + 1000)
        | none => searchDefinedFine fuel clockId f t1Ms startSearchTime (searchTime + 1000)
    else
      none

/-- Main loop of `splitHoldInterval`.  The outer while loop advances
`currentTime` by at least one millisecond per iteration, so
`(t1Ms − t0Ms).toNat + 1` units of fuel dominate its iteration count. -/
def splitLoop (fuel : Nat) (clockId : ClockId) (f : ClockMap) (t1Ms : Int)
    (currentTime : Int) (result : AllocMap) : AllocMap :=
  match fuel with
  | 0 => result
  | fuel + 1 =>
    if currentTime < t1Ms then
      match f currentTime with
      | none =>
        match searchDefinedCoarse 1441 f currentTime t1Ms currentTime with
        | some t => splitLoop fuel clockId f t1Ms t result
        | none => result
      | some bucket =>
        match bucketEndTimeFor clockId f currentTime bucket t1Ms with
        | none =>
          match searchDefinedFine 86401 clockId f t1Ms currentTime currentTime with
          | some t => splitLoop fuel clockId f t1Ms t result
          | none => result
        | some bucketEndTime =>
          splitLoop fuel clockId f t1Ms bucketEndTime
            (if bucketEndTime - currentTime > 0 then
              mapAdd result bucket (bucketEndTime - currentTime)
             else result)
    else
      result

/-- `splitHoldInterval`: splits the holding interval [t0Ms, t1Ms) into
per-bucket elapsed milliseconds under the clock mapping `f`. -/
def splitHoldInterval (t0Ms t1Ms : Int) (clockId : ClockId) (f : ClockMap) : AllocMap :=
  if t0Ms ≥ t1Ms then []
  else splitLoop ((t1Ms - t0Ms).toNat + 1) clockId f t1Ms t0Ms []

/-! ### Claim C8: degenerate intervals -/

/-- Claim C8: for every t0Ms ≥ t1Ms, every clock and every clock mapping,
`splitHoldInterval` returns the empty mapping (and, being a total Lean
function, raises no error). -/
theorem claim_C8_degenerate_interval (t0Ms t1Ms : Int) (clockId : ClockId) (f : ClockMap)
    (h : t0Ms ≥ t1Ms) : splitHoldInterval t0Ms t1Ms clockId f = [] := by
  simp [splitHoldInterval, h]

/-- Witness for C8 at t0Ms = t1Ms = 5 under the UTC clock mapping. -/
theorem claim_C8_degenerate_interval_witness :
    splitHoldInterval 5 5 ClockId.utc (fun _ => some 0) = [] :=
  claim_C8_degenerate_interval 5 5 ClockId.utc (fun _ => some 0) (by norm_num)

/-! ### Helper lemmas for the interval splitter -/

lemma mapSet_sum (m : AllocMap) (k w : Int) :
    allocSum (mapSet m k w) = allocSum m - mapGetD m k + w := by
  induction m with
  | nil => simp [mapSet, allocSum, mapGetD]
  | cons p rest ih =>
    obtain ⟨k2, v2⟩ := p
    by_cases h : k2 = k
    · simp only [mapSet, mapGetD, if_pos h, allocSum, List.map_cons, List.sum_cons]
      ring
    · simp only [mapSet, mapGetD, if_neg h, allocSum, List.map_cons, List.sum_cons]
      have := ih
      simp only [allocSum] at this
      omega

lemma allocSum_mapAdd (m : AllocMap) (k v : Int) :
    allocSum (mapAdd m k v) = allocSum m + v := by
  rw [mapAdd, mapSet_sum]
  omega

lemma refineBucketBoundary_le (fuel : Nat) (lowMs highMs currentBucket : Int) (f : ClockMap)
    (maxTime : Int) : refineBucketBoundary fuel lowMs highMs currentBucket f maxTime ≤ maxTime := by
  induction fuel generalizing lowMs highMs with
  | zero => exact min_le_right _ _
  | succ fuel ih =>
    rw [refineBucketBoundary]
    split
    · split
      · exact ih _ _
      · exact ih _ _
    · exact min_le_right _ _

lemma refineBucketBoundary_gt (fuel : Nat) (lowMs highMs currentBucket : Int) (f : ClockMap)
    (maxTime t : Int) (hlt : t ≤ lowMs) (hlh : lowMs < highMs) (hmax : t < maxTime) :
    t < refineBucketBoundary fuel lowMs highMs currentBucket f maxTime := by
  induction fuel generalizing lowMs highMs with
  | zero => exact lt_min (by omega) hmax
  | succ fuel ih =>
    rw [refineBucketBoundary]
    split
    · split
      · exact ih ((lowMs + highMs) / 2) highMs (by omega) (by omega)
      · exact ih lowMs ((lowMs + highMs) / 2) hlt (by omega)
    · exact lt_min (by omega) hmax

lemma findUniformBucketEndLoop_some_bounds (fuel : Nat) (f : ClockMap)
    (tsMs currentBucket maxTime : Int) (searchTime e : Int)
    (hts : tsMs ≤ searchTime) (hmax : tsMs < maxTime)
    (h : findUniformBucketEndLoop fuel f tsMs currentBucket maxTime searchTime = some e) :
    tsMs < e ∧ e ≤ maxTime := by
  induction fuel generalizing searchTime with
  | zero =>
    rw [findUniformBucketEndLoop] at h
    injection h with h
    omega
  | succ fuel ih =>
    rw [findUniformBucketEndLoop] at h
    split at h
    · split at h
      · exact absurd h (by simp)
      · split at h
        · injection h with h
          subst h
          refine ⟨refineBucketBoundary_gt _ _ _ _ _ _ _ hts (by omega) hmax, ?_⟩
          exact refineBucketBoundary_le _ _ _ _ _ _
        · exact ih _ (by omega) h
    · injection h with h
      omega

lemma findUnequalHoursBucketEndLoop_some_bounds (fuel : Nat) (f : ClockMap)
    (currentBucket maxTime highMs : Int) (tsMs searchTime initialStep e : Int)
    (cnt : Nat) (hts : tsMs ≤ searchTime) (hstep : 0 < initialStep) (hmax : tsMs < maxTime)
    (h : findUnequalHoursBucketEndLoop fuel f currentBucket maxTime highMs searchTime
      initialStep cnt = some e) :
    tsMs < e ∧ e ≤ maxTime := by
  induction fuel generalizing searchTime initialStep cnt with
  | zero =>
    rw [findUnequalHoursBucketEndLoop] at h
    injection h with h
    omega
  | succ fuel ih =>
    rw [findUnequalHoursBucketEndLoop] at h
    split at h
    · split at h
      · exact absurd h (by simp)
      · split at h
        · injection h with h
          subst h
          refine ⟨refineBucketBoundary_gt _ _ _ _ _ _ _ hts (by omega) hmax, ?_⟩
          exact refineBucketBoundary_le _ _ _ _ _ _
        · refine ih _ _ _ (by omega) ?_ h
          split
          · norm_num
          · exact hstep
    · injection h with h
      omega

lemma bucketEndTimeFor_some_bounds (clockId : ClockId) (f : ClockMap)
    (tsMs currentBucket maxTime e : Int) (hmax : tsMs < maxTime)
    (h : bucketEndTimeFor clockId f tsMs currentBucket maxTime = some e) :
    tsMs < e ∧ e ≤ maxTime := by
  rw [bucketEndTimeFor] at h
  split at h
  · exact findUnequalHoursBucketEndLoop_some_bounds _ _ _ _ _ _ _ _ _ _ le_rfl (by norm_num)
      hmax h
  · exact findUniformBucketEndLoop_some_bounds _ _ _ _ _ _ _ le_rfl hmax h

lemma searchDefinedCoarse_some_gt (fuel : Nat) (f : ClockMap)
    (currentTime maxSearch searchTime t : Int)
    (h : searchDefinedCoarse fuel f currentTime maxSearch searchTime = some t) :
    searchTime < t := by
  induction fuel generalizing searchTime with
  | zero => rw [searchDefinedCoarse] at h; exact absurd h (by simp)
  | succ fuel ih =>
    rw [searchDefinedCoarse] at h
    split at h
    · split at h
      · injection h with h
        omega
      · have := ih _ h
        omega
    · exact absurd h (by simp)

lemma searchDefinedFine_some_gt (fuel : Nat) (clockId : ClockId) (f : ClockMap)
    (t1Ms startSearchTime searchTime t : Int)
    (h : searchDefinedFine fuel clockId f t1Ms startSearchTime searchTime = some t) :
    searchTime < t := by
  induction fuel generalizing searchTime with
  | zero => rw [searchDefinedFine] at h; exact absurd h (by simp)
  | succ fuel ih =>
    rw [searchDefinedFine] at h
    split at h
    · split at h
      · have := ih _ h
        omega
      · split at h
        · injection h with h
          omega
        · have := ih _ h
          omega
    · exact absurd h (by simp)

lemma findUniformBucketEndLoop_isSome (fuel : Nat) (f : ClockMap)
    (tsMs currentBucket maxTime : Int) (searchTime : Int)
    (hdef : ∀ t, tsMs ≤ t → t ≤ maxTime → (f t).isSome) (hts : tsMs ≤ searchTime) :
    ∃ e, findUniformBucketEndLoop fuel f tsMs currentBucket maxTime searchTime = some e := by
  induction fuel generalizing searchTime with
  | zero => exact ⟨maxTime, rfl⟩
  | succ fuel ih =>
    rw [findUniformBucketEndLoop]
    by_cases hg : searchTime < maxTime ∧ searchTime < tsMs + 600000
    · rw [if_pos hg]
      obtain ⟨tb, htb⟩ := Option.isSome_iff_exists.mp
        (hdef (min (searchTime + 30000) maxTime) (by omega) (by omega))
      simp only [htb]
      by_cases hb : tb ≠ currentBucket
      · rw [if_pos hb]
        exact ⟨_, rfl⟩
      · rw [if_neg hb]
        exact ih _ (by omega)
    · rw [if_neg hg]
      exact ⟨maxTime, rfl⟩

lemma findUnequalHoursBucketEndLoop_isSome (fuel : Nat) (f : ClockMap)
    (currentBucket maxTime highMs : Int) (tsMs searchTime initialStep : Int) (cnt : Nat)
    (hdef : ∀ t, tsMs ≤ t → t ≤ maxTime → (f t).isSome)
    (hhigh : highMs ≤ maxTime) (hts : tsMs ≤ searchTime) (hstep : 0 < initialStep) :
    ∃ e, findUnequalHoursBucketEndLoop fuel f currentBucket maxTime highMs searchTime
      initialStep cnt = some e := by
  induction fuel generalizing searchTime initialStep cnt with
  | zero => exact ⟨maxTime, rfl⟩
  | succ fuel ih =>
    rw [findUnequalHoursBucketEndLoop]
    by_cases hg : searchTime < highMs
    · rw [if_pos hg]
      obtain ⟨tb, htb⟩ := Option.isSome_iff_exists.mp
        (hdef (min (searchTime + initialStep) highMs) (by omega) (by omega))
      simp only [htb]
      by_cases hb : tb ≠ currentBucket
      · rw [if_pos hb]
        exact ⟨_, rfl⟩
      · rw [if_neg hb]
        refine ih _ _ _ (by omega) ?_
        split
        · norm_num
        · exact hstep
    · rw [if_neg hg]
      exact ⟨maxTime, rfl⟩

lemma bucketEndTimeFor_isSome (clockId : ClockId) (f : ClockMap)
    (tsMs currentBucket maxTime : Int)
    (hdef : ∀ t, tsMs ≤ t → t ≤ maxTime → (f t).isSome) :
    ∃ e, bucketEndTimeFor clockId f tsMs currentBucket maxTime = some e := by
  rw [bucketEndTimeFor]
  split
  · exact findUnequalHoursBucketEndLoop_isSome _ _ _ _ _ _ _ _ _ hdef (min_le_left _ _)
      le_rfl (by norm_num)
  · exact findUniformBucketEndLoop_isSome _ _ _ _ _ _ hdef le_rfl

lemma splitLoop_sum_le (clockId : ClockId) (f : ClockMap) (t1Ms : Int) (fuel : Nat)
    (currentTime : Int) (result : AllocMap) :
    allocSum (splitLoop fuel clockId f t1Ms currentTime result)
      ≤ allocSum result + max 0 (t1Ms - currentTime) := by
  induction fuel generalizing currentTime result with
  | zero =>
    rw [splitLoop]
    omega
  | succ fuel ih =>
    rw [splitLoop]
    by_cases hct : currentTime < t1Ms
    · rw [if_pos hct]
      rcases hf : f currentTime with _ | bucket
      · simp only
        rcases hsc : searchDefinedCoarse 1441 f currentTime t1Ms currentTime with _ | t
        · simp only
          omega
        · simp only
          have hgt := searchDefinedCoarse_some_gt 1441 f currentTime t1Ms currentTime t hsc
          have h1 := ih t result
          omega
      · simp only
        rcases hbe : bucketEndTimeFor clockId f currentTime bucket t1Ms with _ | e
        · simp only
          rcases hsf : searchDefinedFine 86401 clockId f t1Ms currentTime currentTime with _ | t
          · simp only
            omega
          · simp only
            have hgt := searchDefinedFine_some_gt 86401 clockId f t1Ms currentTime currentTime
              t hsf
            have h1 := ih t result
            omega
        · simp only
          obtain ⟨he1, he2⟩ := bucketEndTimeFor_some_bounds clockId f currentTime bucket t1Ms e
            hct hbe
          rw [if_pos (by omega)]
          have h1 := ih e (mapAdd result bucket (e - currentTime))
          rw [allocSum_mapAdd] at h1
          omega
    · rw [if_neg hct]
      omega

lemma splitLoop_sum_eq (clockId : ClockId) (f : ClockMap) (t0Ms t1Ms : Int)
    (hdef : ∀ t, t0Ms ≤ t → t ≤ t1Ms → (f t).isSome) (fuel : Nat)
    (currentTime : Int) (result : AllocMap) (hc0 : t0Ms ≤ currentTime)
    (hc1 : currentTime ≤ t1Ms) (hfuel : (t1Ms - currentTime).toNat < fuel) :
    allocSum (splitLoop fuel clockId f t1Ms currentTime result)
      = allocSum result + (t1Ms - currentTime) := by
  induction fuel generalizing currentTime result with
  | zero => omega
  | succ fuel ih =>
    rw [splitLoop]
    by_cases hct : currentTime < t1Ms
    · rw [if_pos hct]
      obtain ⟨bucket, hb⟩ := Option.isSome_iff_exists.mp (hdef currentTime hc0 (by omega))
      simp only [hb]
      obtain ⟨e, hbe⟩ := bucketEndTimeFor_isSome clockId f currentTime bucket t1Ms
        (fun t ht1 ht2 => hdef t (by omega) ht2)
      simp only [hbe]
      obtain ⟨he1, he2⟩ := bucketEndTimeFor_some_bounds clockId f currentTime bucket t1Ms e
        hct hbe
      rw [if_pos (by omega)]
      have h1 := ih e (mapAdd result bucket (e - currentTime)) (by omega) (by omega) (by omega)
      rw [allocSum_mapAdd] at h1
      omega
    · rw [if_neg hct]
      omega

/-! ### Claim C1 about the interval splitter's allocation sum -/

/-- A clock mapping that is defined at every instant of the half-open
interval [0, 10) but undefined from t = 10 on.  Under the spec's clock
model this definedness pattern is realizable: the unequal-hours clock is
undefined exactly on the UTC calendar days for which the external
sunrise/sunset provider reports no sunrise or sunset, so its defined region
can end exactly at a day boundary coinciding with t1Ms. -/
def clockMapUndefinedFrom10 : ClockMap :=
  fun t => if t < 10 then some 0 else none

/-- Claim C1 counterexample: with the interval [0, 10), a clock mapping
defined at every instant of [0, 10) (but undefined at the endpoint 10), the
splitter allocates nothing: the bucket-end search probes the endpoint t1Ms
itself, finds the mapping undefined there, and the recovery search then
discards the whole defined tail, so the sum is 0, not t1Ms − t0Ms = 10. -/
theorem claim_C1_counterexample :
    (∀ t, 0 ≤ t → t < 10 → (clockMapUndefinedFrom10 t).isSome) ∧
    allocSum (splitHoldInterval 0 10 ClockId.utc clockMapUndefinedFrom10) = 0 ∧
    (0 : Int) ≠ 10 - 0 := by
  refine ⟨fun t h1 h2 => ?_, by rfl, by norm_num⟩
  simp [clockMapUndefinedFrom10, h2]

/-- Claim C1 (amended): for every holding interval with t0Ms < t1Ms, every
clock id and every clock mapping, the sum of the per-bucket millisecond
values returned by `splitHoldInterval` is at most t1Ms − t0Ms; and if the
clock mapping is defined at every instant of the closed interval
[t0Ms, t1Ms] — the splitter's boundary search also probes the endpoint —
the sum equals exactly t1Ms − t0Ms. -/
theorem claim_C1_amended_interval_sum (t0Ms t1Ms : Int) (clockId : ClockId) (f : ClockMap)
    (h : t0Ms < t1Ms) :
    allocSum (splitHoldInterval t0Ms t1Ms clockId f) ≤ t1Ms - t0Ms ∧
    ((∀ t, t0Ms ≤ t → t ≤ t1Ms → (f t).isSome) →
      allocSum (splitHoldInterval t0Ms t1Ms clockId f) = t1Ms - t0Ms) := by
  have hsplit : splitHoldInterval t0Ms t1Ms clockId f
      = splitLoop ((t1Ms - t0Ms).toNat + 1) clockId f t1Ms t0Ms [] := by
    rw [splitHoldInterval, if_neg (by omega)]
  constructor
  · rw [hsplit]
    have h1 := splitLoop_sum_le clockId f t1Ms ((t1Ms - t0Ms).toNat + 1) t0Ms []
    have h2 : allocSum [] = 0 := rfl
    omega
  · intro hdef
    rw [hsplit]
    have h1 := splitLoop_sum_eq clockId f t0Ms t1Ms hdef ((t1Ms - t0Ms).toNat + 1) t0Ms []
      le_rfl (by omega) (by omega)
    have h2 : allocSum [] = 0 := rfl
    omega

/-- Witness for C1 (amended) on the interval [0, 2) under a total clock
mapping sending every instant to bucket 0. -/
theorem claim_C1_amended_interval_sum_witness :
    allocSum (splitHoldInterval 0 2 ClockId.utc (fun _ => some 0)) ≤ 2 - 0 ∧
    allocSum (splitHoldInterval 0 2 ClockId.utc (fun _ => some 0)) = 2 - 0 := by
  have h := claim_C1_amended_interval_sum 0 2 ClockId.utc (fun _ => some 0) (by norm_num)
  exact ⟨h.1, h.2 (fun t h1 h2 => rfl)⟩

/-! ### Measurement ingestion core (src/convex/measurement.ts)

`ingestCommittedEvent` wraps the analytics update in persistence plumbing
(loading config, control definition and blob chunks, then saving chunks);
that I/O layer is out of scope here.  What the claims are about is the pure
update the function applies to the in-memory dense array `blob.data` in its
steps 3, 5 and 6: the integrity gate on the interval, the per-clock holding
updates through `splitHoldInterval`/`holdIndex`, and the per-clock,
user-only transition increments through `mapTimestampToBucket`/`transIndex`.
We embed that update as a pure function on `Int → Int` (the dense array as
a total map from indices to values), with the per-clock family
`F : ClockId → ClockMap` abstracting `mapTimestampToBucket · · config`. -/

/-- The dense array, as a total map from index to stored value. -/
abbrev DenseData := Int → Int

/-- `data[i] = (data[i] || 0) + v` at a single index. -/
def updAdd (d : DenseData) (i v : Int) : DenseData :=
  fun j => if j = i then d j + v else d j

/-- `getClockIndex`: canonical clock ordinal (utc=0, local=1, meanSolar=2,
apparentSolar=3, unequalHours=4). -/
def clockIndexOf (clockId : ClockId) : Int :=
  match clockId with
  | .utc => 0
  | .localTime => 1
  | .meanSolar => 2
  | .apparentSolar => 3
  | .unequalHours => 4

/-- `ALL_CLOCKS`, in canonical order. -/
def allClocks : List ClockId :=
  [.utc, .localTime, .meanSolar, .apparentSolar, .unequalHours]

/-- Step 5 inner loop: add each bucket allocation into the holding-time cell
`holdIndex state clockIndex bucketId`. -/
def applyHoldAllocations (state clockIdx : Int) (allocs : AllocMap) (d : DenseData) :
    DenseData :=
  allocs.foldl (fun dd p => updAdd dd (holdIndex state clockIdx p.1) p.2) d

/-- Step 5 outer loop: for each clock, split the holding interval and apply
its allocations. -/
def applyHoldClocks (l : List ClockId) (F : ClockId → ClockMap) (t0Ms t1Ms state : Int)
    (d : DenseData) : DenseData :=
  l.foldl (fun dd ck =>
    applyHoldAllocations state (clockIndexOf ck) (splitHoldInterval t0Ms t1Ms ck (F ck)) dd) d

/-- Step 6 loop: for each clock, map the commit instant and, where defined,
increment the transition cell; a `transIndex` error aborts the whole
ingestion (the source's try/catch discards the event). -/
def applyTransClocks (l : List ClockId) (F : ClockId → ClockMap)
    (t1Ms fromState toState numStates : Int) (d : DenseData) : Except String DenseData :=
  match l with
  | [] => .ok d
  | ck :: rest =>
    match F ck t1Ms with
    | none => applyTransClocks rest F t1Ms fromState toState numStates d
    | some bucketId =>
      match transIndex fromState toState (clockIndexOf ck) bucketId numStates with
      | .error e => .error e
      | .ok i =>
        applyTransClocks rest F t1Ms fromState toState numStates (updAdd d i 1)

/-- The event initiator flag. -/
inductive Initiator where
  | user
  | model
deriving DecidableEq

/-- The pure dense-array update of `ingestCommittedEvent` (steps 3, 5, 6):
the integrity gate discards the event unless t0Ms < t1Ms (the remaining
integrity checks are type-level in this embedding); then holding times for
the previous state are split per clock and added; then, only for a
user-initiated event, one transition cell per defined clock is incremented.
An error from the transition indexing makes the source's catch block skip
saving, so the stored array is unchanged. -/
def ingestCommittedEventCore (numStates t0Ms t1Ms state fromState toState : Int)
    (initiator : Initiator) (F : ClockId → ClockMap) (d : DenseData) : DenseData :=
  if t0Ms ≥ t1Ms then d
  else
    match initiator with
    | .model => applyHoldClocks allClocks F t0Ms t1Ms state d
    | .user =>
      match applyTransClocks allClocks F t1Ms fromState toState numStates
          (applyHoldClocks allClocks F t0Ms t1Ms state d) with
      | .ok d2 => d2
      | .error _ => d

/-- The value `transIndex` returns for valid fromState/toState, as a plain
function: the address of one transition cell. -/
def transCell (fromState toState numStates ckIdx b : Int) : Int :=
  numStates * 10080
    + (fromState * (numStates - 1) + offsetWithinFromBlock fromState toState) * 10080
    + ckIdx * 2016 + b

/-- The transition cells a user-initiated event touches, one per clock whose
mapping is defined at the commit instant. -/
def transCellsOf (l : List ClockId) (F : ClockId → ClockMap)
    (t1Ms fromState toState numStates : Int) : List Int :=
  l.filterMap (fun ck =>
    (F ck t1Ms).map (fun b => transCell fromState toState numStates (clockIndexOf ck) b))

/-! ### Helper lemmas for the ingestion core -/

lemma updAdd_apply (d : DenseData) (i v j : Int) :
    updAdd d i v j = if j = i then d j + v else d j := rfl

lemma mapSet_mem (m : AllocMap) (k w : Int) (p : Int × Int) (hp : p ∈ mapSet m k w) :
    p ∈ m ∨ p.1 = k := by
  induction m with
  | nil =>
    simp only [mapSet, List.mem_singleton] at hp
    subst hp
    right
    rfl
  | cons q rest ih =>
    obtain ⟨k2, v2⟩ := q
    by_cases h : k2 = k
    · simp only [mapSet, if_pos h, List.mem_cons] at hp
      rcases hp with hp | hp
      · right
        rw [hp, h]
      · left
        exact List.mem_cons_of_mem _ hp
    · simp only [mapSet, if_neg h, List.mem_cons] at hp
      rcases hp with hp | hp
      · left
        rw [hp]
        exact List.mem_cons_self _ _
      · rcases ih hp with h2 | h2
        · left
          exact List.mem_cons_of_mem _ h2
        · right
          exact h2

lemma mapAdd_mem (m : AllocMap) (k v : Int) (p : Int × Int) (hp : p ∈ mapAdd m k v) :
    p ∈ m ∨ p.1 = k :=
  mapSet_mem m k _ p hp

lemma splitLoop_key_preimage (clockId : ClockId) (f : ClockMap) (t1Ms : Int) (fuel : Nat)
    (currentTime : Int) (result : AllocMap) (p : Int × Int)
    (hp : p ∈ splitLoop fuel clockId f t1Ms currentTime result) :
    p ∈ result ∨ ∃ t, f t = some p.1 := by
  induction fuel generalizing currentTime result with
  | zero =>
    rw [splitLoop] at hp
    exact Or.inl hp
  | succ fuel ih =>
    rw [splitLoop] at hp
    by_cases hct : currentTime < t1Ms
    · rw [if_pos hct] at hp
      rcases hf : f currentTime with _ | bucket
      · simp only [hf] at hp
        rcases hsc : searchDefinedCoarse 1441 f currentTime t1Ms currentTime with _ | t
        · simp only [hsc] at hp
          exact Or.inl hp
        · simp only [hsc] at hp
          exact ih _ _ hp
      · simp only [hf] at hp
        rcases hbe : bucketEndTimeFor clockId f currentTime bucket t1Ms with _ | e
        · simp only [hbe] at hp
          rcases hsf : searchDefinedFine 86401 clockId f t1Ms currentTime currentTime with _ | t
          · simp only [hsf] at hp
            exact Or.inl hp
          · simp only [hsf] at hp
            exact ih _ _ hp
        · simp only [hbe] at hp
          by_cases hpos : e - currentTime > 0
          · rw [if_pos hpos] at hp
            rcases ih _ _ hp with h2 | h2
            · rcases mapAdd_mem result bucket _ p h2 with h3 | h3
              · exact Or.inl h3
              · exact Or.inr ⟨currentTime, by rw [hf, h3]⟩
            · exact Or.inr h2
          · rw [if_neg hpos] at hp
            exact ih _ _ hp
    · rw [if_neg hct] at hp
      exact Or.inl hp

lemma splitHoldInterval_key_preimage (t0Ms t1Ms : Int) (clockId : ClockId) (f : ClockMap)
    (p : Int × Int) (hp : p ∈ splitHoldInterval t0Ms t1Ms clockId f) :
    ∃ t, f t = some p.1 := by
  rw [splitHoldInterval] at hp
  split at hp
  · exact absurd hp (by simp)
  · rcases splitLoop_key_preimage clockId f t1Ms _ t0Ms [] p hp with h | h
    · exact absurd h (by simp)
    · exact h

lemma applyHoldAllocations_ne (state clockIdx : Int) (allocs : AllocMap) (d : DenseData)
    (j : Int) (h : ∀ p ∈ allocs, holdIndex state clockIdx p.1 ≠ j) :
    applyHoldAllocations state clockIdx allocs d j = d j := by
  induction allocs generalizing d with
  | nil => rfl
  | cons p rest ih =>
    show applyHoldAllocations state clockIdx rest
      (updAdd d (holdIndex state clockIdx p.1) p.2) j = d j
    rw [ih _ (fun q hq => h q (List.mem_cons_of_mem _ hq))]
    rw [updAdd_apply, if_neg]
    intro hj
    exact h p (List.mem_cons_self _ _) hj.symm

lemma clockIndexOf_nonneg : ∀ ck : ClockId, 0 ≤ clockIndexOf ck := by
  intro ck
  cases ck <;> norm_num [clockIndexOf]

lemma clockIndexOf_le_four : ∀ ck : ClockId, clockIndexOf ck ≤ 4 := by
  intro ck
  cases ck <;> norm_num [clockIndexOf]

lemma clockIndexOf_injective : ∀ a b : ClockId, clockIndexOf a = clockIndexOf b → a = b := by
  intro a b
  cases a <;> cases b <;> simp [clockIndexOf]

lemma applyHoldClocks_high (l : List ClockId) (F : ClockId → ClockMap)
    (t0Ms t1Ms state N : Int) (d : DenseData) (j : Int)
    (hsN : state < N)
    (hF : ∀ ck t b, F ck t = some b → 0 ≤ b ∧ b < 2016)
    (hj : N * 10080 ≤ j) :
    applyHoldClocks l F t0Ms t1Ms state d j = d j := by
  induction l generalizing d with
  | nil => rfl
  | cons ck rest ih =>
    show applyHoldClocks rest F t0Ms t1Ms state
      (applyHoldAllocations state (clockIndexOf ck)
        (splitHoldInterval t0Ms t1Ms ck (F ck)) d) j = d j
    rw [ih _]
    apply applyHoldAllocations_ne
    intro p hp
    obtain ⟨t, ht⟩ := splitHoldInterval_key_preimage t0Ms t1Ms ck (F ck) p hp
    obtain ⟨hb0, hb1⟩ := hF ck t p.1 ht
    have := holdIndex_lt state (clockIndexOf ck) p.1 N hsN (clockIndexOf_le_four ck)
      (by omega)
    omega

lemma transCell_eq_transIndex (fromState toState N ckIdx b : Int) (hne : fromState ≠ toState)
    (hf0 : 0 ≤ fromState) (hfN : fromState < N) (ht0 : 0 ≤ toState) (htN : toState < N) :
    transIndex fromState toState ckIdx b N = .ok (transCell fromState toState N ckIdx b) := by
  rw [transIndex_eq_ok fromState toState ckIdx b N hne hf0 hfN ht0 htN]
  rfl

lemma transCell_ge (fromState toState N ckIdx b : Int) (hne : fromState ≠ toState)
    (hf0 : 0 ≤ fromState) (hfN : fromState < N) (ht0 : 0 ≤ toState) (htN : toState < N)
    (hci : 0 ≤ ckIdx) (hb : 0 ≤ b) :
    N * 10080 ≤ transCell fromState toState N ckIdx b := by
  obtain ⟨hg0, _⟩ := transGroup_value_bounds fromState toState N hne hf0 hfN ht0 htN
  rw [transCell]
  have h1 : 0 ≤ (fromState * (N - 1) + offsetWithinFromBlock fromState toState) * 10080 :=
    mul_nonneg hg0 (by norm_num)
  have h2 : 0 ≤ ckIdx * 2016 := mul_nonneg hci (by norm_num)
  linarith

lemma transCell_inj (fromState toState N ci b ci2 b2 : Int)
    (hb : 0 ≤ b) (hb1 : b < 2016) (hb2 : 0 ≤ b2) (hb3 : b2 < 2016)
    (hci : 0 ≤ ci) (hci1 : ci ≤ 4) (hci2 : 0 ≤ ci2) (hci3 : ci2 ≤ 4)
    (h : transCell fromState toState N ci b = transCell fromState toState N ci2 b2) :
    ci = ci2 ∧ b = b2 := by
  rw [transCell, transCell] at h
  have hlin : ci * 2016 + b = ci2 * 2016 + b2 := by linarith
  omega

lemma allClocks_nodup : allClocks.Nodup := by decide

lemma applyTransClocks_ok (l : List ClockId) (F : ClockId → ClockMap)
    (t1Ms fromState toState N : Int) (d : DenseData) (hne : fromState ≠ toState)
    (hf0 : 0 ≤ fromState) (hfN : fromState < N) (ht0 : 0 ≤ toState) (htN : toState < N) :
    ∃ d', applyTransClocks l F t1Ms fromState toState N d = .ok d' ∧
      ∀ j, d' j = d j + ((transCellsOf l F t1Ms fromState toState N).count j : Int) := by
  induction l generalizing d with
  | nil =>
    refine ⟨d, rfl, ?_⟩
    intro j
    simp [transCellsOf]
  | cons ck rest ih =>
    rw [applyTransClocks]
    rcases hF : F ck t1Ms with _ | b
    · simp only [hF]
      obtain ⟨d', h1, h2⟩ := ih d
      refine ⟨d', h1, ?_⟩
      intro j
      rw [h2]
      simp [transCellsOf, hF]
    · simp only [hF]
      rw [transCell_eq_transIndex fromState toState N (clockIndexOf ck) b hne hf0 hfN ht0 htN]
      obtain ⟨d', h1, h2⟩ := ih (updAdd d (transCell fromState toState N (clockIndexOf ck) b) 1)
      refine ⟨d', h1, ?_⟩
      intro j
      rw [h2, updAdd_apply]
      have hcells : transCellsOf (ck :: rest) F t1Ms fromState toState N
          = transCell fromState toState N (clockIndexOf ck) b
            :: transCellsOf rest F t1Ms fromState toState N := by
        simp [transCellsOf, hF]
      rw [hcells, List.count_cons]
      by_cases hj : j = transCell fromState toState N (clockIndexOf ck) b
      · subst hj
        simp only [if_pos rfl, beq_self_eq_true, if_true]
        push_cast
        omega
      · have hb2 : (j == transCell fromState toState N (clockIndexOf ck) b) = false := by
          simp [hj]
        rw [if_neg hj]
        norm_num [hb2]
        exact fun hx => hj hx.symm

lemma transCellsOf_mem (l : List ClockId) (F : ClockId → ClockMap)
    (t1Ms fromState toState N j : Int) :
    j ∈ transCellsOf l F t1Ms fromState toState N ↔
      ∃ ck ∈ l, ∃ b, F ck t1Ms = some b
        ∧ transCell fromState toState N (clockIndexOf ck) b = j := by
  rw [transCellsOf, List.mem_filterMap]
  constructor
  · rintro ⟨ck, hck, hmap⟩
    rw [Option.map_eq_some'] at hmap
    obtain ⟨b, hb, hcell⟩ := hmap
    exact ⟨ck, hck, b, hb, hcell⟩
  · rintro ⟨ck, hck, b, hb, hcell⟩
    exact ⟨ck, hck, by rw [Option.map_eq_some']; exact ⟨b, hb, hcell⟩⟩

lemma transCellsOf_count_zero (l : List ClockId) (F : ClockId → ClockMap)
    (t1Ms fromState toState N j : Int)
    (h : ∀ ck ∈ l, ∀ b, F ck t1Ms = some b
      → j ≠ transCell fromState toState N (clockIndexOf ck) b) :
    (transCellsOf l F t1Ms fromState toState N).count j = 0 := by
  rw [List.count_eq_zero]
  intro hmem
  obtain ⟨ck, hck, b, hb, hcell⟩ := (transCellsOf_mem l F t1Ms fromState toState N j).mp hmem
  exact h ck hck b hb hcell.symm

lemma transCellsOf_count_one (l : List ClockId) (F : ClockId → ClockMap)
    (t1Ms fromState toState N : Int) (hl : l.Nodup) (ck : ClockId) (hmem : ck ∈ l)
    (b : Int) (hFb : F ck t1Ms = some b)
    (hF : ∀ c t b2, F c t = some b2 → 0 ≤ b2 ∧ b2 < 2016) :
    (transCellsOf l F t1Ms fromState toState N).count
      (transCell fromState toState N (clockIndexOf ck) b) = 1 := by
  induction l with
  | nil => exact absurd hmem (by simp)
  | cons c rest ih =>
    rw [List.nodup_cons] at hl
    rcases List.mem_cons.mp hmem with heq | htail
    · subst heq
      have hcells : transCellsOf (ck :: rest) F t1Ms fromState toState N
          = transCell fromState toState N (clockIndexOf ck) b
            :: transCellsOf rest F t1Ms fromState toState N := by
        simp [transCellsOf, hFb]
      rw [hcells, List.count_cons]
      have hzero : (transCellsOf rest F t1Ms fromState toState N).count
          (transCell fromState toState N (clockIndexOf ck) b) = 0 := by
        apply transCellsOf_count_zero
        intro c2 hc2 b2 hb2 hcell
        obtain ⟨hb0, hb1⟩ := hF ck t1Ms b hFb
        obtain ⟨hb20, hb21⟩ := hF c2 t1Ms b2 hb2
        obtain ⟨hci, hbeq⟩ := transCell_inj fromState toState N (clockIndexOf ck) b
          (clockIndexOf c2) b2 hb0 hb1 hb20 hb21 (clockIndexOf_nonneg ck)
          (clockIndexOf_le_four ck) (clockIndexOf_nonneg c2) (clockIndexOf_le_four c2) hcell
        have := clockIndexOf_injective ck c2 hci
        subst this
        exact hl.1 hc2
      rw [hzero]
      simp
    · have hne2 : c ≠ ck := fun hx => hl.1 (hx ▸ htail)
      rcases hFc : F c t1Ms with _ | b2
      · have hcells : transCellsOf (c :: rest) F t1Ms fromState toState N
            = transCellsOf rest F t1Ms fromState toState N := by
          simp [transCellsOf, hFc]
        rw [hcells]
        exact ih hl.2 htail
      · have hcells : transCellsOf (c :: rest) F t1Ms fromState toState N
            = transCell fromState toState N (clockIndexOf c) b2
              :: transCellsOf rest F t1Ms fromState toState N := by
          simp [transCellsOf, hFc]
        rw [hcells, List.count_cons]
        have hnecell : ¬ (transCell fromState toState N (clockIndexOf ck) b
            = transCell fromState toState N (clockIndexOf c) b2) := by
          intro hcell
          obtain ⟨hb0, hb1⟩ := hF ck t1Ms b hFb
          obtain ⟨hb20, hb21⟩ := hF c t1Ms b2 hFc
          obtain ⟨hci, hbeq⟩ := transCell_inj fromState toState N (clockIndexOf ck) b
            (clockIndexOf c) b2 hb0 hb1 hb20 hb21 (clockIndexOf_nonneg ck)
            (clockIndexOf_le_four ck) (clockIndexOf_nonneg c) (clockIndexOf_le_four c) hcell
          exact hne2 (clockIndexOf_injective c ck hci.symm)
        rw [ih hl.2 htail]
        have hb3 : (transCell fromState toState N (clockIndexOf ck) b
            == transCell fromState toState N (clockIndexOf c) b2) = false := by
          simp [hnecell]
        simp [hb3]
        exact fun hx => hnecell hx.symm

lemma mem_allClocks : ∀ ck : ClockId, ck ∈ allClocks := by
  intro ck
  cases ck <;> simp [allClocks]

/-- Claim C2: for a committed change event with a valid previous state and a
valid fromState ≠ toState (both in [0,N−1]) and a positive interval: in the
user-initiated case, for each clock whose mapping is defined at the commit
instant, exactly the cell at `transIndex(fromState,toState,clock,bucket,N)`
is incremented by 1 and every other transition-section cell is unchanged;
in the model-initiated case no transition-section cell changes at all; and
the holding-time updates are identical for both initiators. -/
theorem claim_C2_transition_frame (N t0Ms t1Ms state fromState toState : Int)
    (F : ClockId → ClockMap) (d : DenseData)
    (hs0 : 0 ≤ state) (hsN : state < N)
    (hf0 : 0 ≤ fromState) (hfN : fromState < N)
    (ht0 : 0 ≤ toState) (htN : toState < N)
    (hne : fromState ≠ toState) (ht : t0Ms < t1Ms)
    (hF : ∀ ck t b, F ck t = some b → 0 ≤ b ∧ b < 2016) :
    (∀ ck b i, F ck t1Ms = some b →
      transIndex fromState toState (clockIndexOf ck) b N = .ok i →
      ingestCommittedEventCore N t0Ms t1Ms state fromState toState .user F d i = d i + 1) ∧
    (∀ j, N * 10080 ≤ j →
      (∀ ck b, F ck t1Ms = some b →
        j ≠ transCell fromState toState N (clockIndexOf ck) b) →
      ingestCommittedEventCore N t0Ms t1Ms state fromState toState .user F d j = d j) ∧
    (∀ j, N * 10080 ≤ j →
      ingestCommittedEventCore N t0Ms t1Ms state fromState toState .model F d j = d j) ∧
    (∀ j, j < N * 10080 →
      ingestCommittedEventCore N t0Ms t1Ms state fromState toState .user F d j
        = ingestCommittedEventCore N t0Ms t1Ms state fromState toState .model F d j) := by
  obtain ⟨d2, hok, hcount⟩ := applyTransClocks_ok allClocks F t1Ms fromState toState N
    (applyHoldClocks allClocks F t0Ms t1Ms state d) hne hf0 hfN ht0 htN
  have huser : ingestCommittedEventCore N t0Ms t1Ms state fromState toState .user F d = d2 := by
    rw [ingestCommittedEventCore, if_neg (by omega)]
    simp only [hok]
  have hmodel : ingestCommittedEventCore N t0Ms t1Ms state fromState toState .model F d
      = applyHoldClocks allClocks F t0Ms t1Ms state d := by
    rw [ingestCommittedEventCore, if_neg (by omega)]
  refine ⟨?_, ?_, ?_, ?_⟩
  · intro ck b i hFb hti
    rw [transCell_eq_transIndex fromState toState N (clockIndexOf ck) b hne hf0 hfN ht0 htN]
      at hti
    injection hti with hti
    subst hti
    rw [huser, hcount]
    rw [transCellsOf_count_one allClocks F t1Ms fromState toState N allClocks_nodup ck
      (mem_allClocks ck) b hFb hF]
    have hge := transCell_ge fromState toState N (clockIndexOf ck) b hne hf0 hfN ht0 htN
      (clockIndexOf_nonneg ck) (hF ck t1Ms b hFb).1
    rw [applyHoldClocks_high allClocks F t0Ms t1Ms state N d _ hsN hF hge]
    norm_num
  · intro j hj hnot
    rw [huser, hcount]
    rw [transCellsOf_count_zero allClocks F t1Ms fromState toState N j
      (fun ck _ b hb => hnot ck b hb)]
    rw [applyHoldClocks_high allClocks F t0Ms t1Ms state N d j hsN hF hj]
    norm_num
  · intro j hj
    rw [hmodel]
    exact applyHoldClocks_high allClocks F t0Ms t1Ms state N d j hsN hF hj
  · intro j hj
    rw [huser, hmodel, hcount]
    rw [transCellsOf_count_zero allClocks F t1Ms fromState toState N j ?_]
    · norm_num
    · intro ck hckmem b hb hcell
      have hge := transCell_ge fromState toState N (clockIndexOf ck) b hne hf0 hfN ht0 htN
        (clockIndexOf_nonneg ck) (hF ck t1Ms b hb).1
      omega

/-- Witness for C2 at N = 6, interval [0, 2), previous state 5, transition
5 → 2, all clock mappings sending every instant to bucket 0, zero array:
under the UTC clock the cell at `transIndex 5 2 0 0 6 = 332640` goes from 0
to 1. -/
theorem claim_C2_transition_frame_witness :
    ingestCommittedEventCore 6 0 2 5 5 2 .user (fun _ _ => some 0) (fun _ => 0) 332640
      = (fun _ => (0 : Int)) 332640 + 1 :=
  (claim_C2_transition_frame 6 0 2 5 5 2 (fun _ _ => some 0) (fun _ => 0)
    (by norm_num) (by norm_num) (by norm_num) (by norm_num) (by norm_num) (by norm_num)
    (by norm_num) (by norm_num)
    (by intro ck t b hb; injection hb with h; omega)).1
    ClockId.utc 0 332640 rfl (by rfl)

/-! ### Solar clock mappers (src/packages/core/src/clocks/meanSolar.ts,
apparentSolar.ts)

The timezone field of the configuration is used only by the local-clock
mapper and is omitted here; latitude and longitude are rationals (the
float arithmetic of the source on them is modelled exactly over ℚ).  The
UTC calendar decomposition of the JavaScript `Date` API is modelled
directly: a UTC day is exactly 86,400,000 ms, the Unix epoch fell on a
Thursday (weekday 4 in the 0=Sunday convention of `getUTCDay`), so
milliseconds-into-day is the timestamp mod 86,400,000 (Euclidean, as the
Date API never yields negative components) and `getUTCDay` is
(floor(ts / 86400000) + 4) mod 7.

`equationOfTime` computes a finite number of minutes from day-of-year and
fractional hour via Float trigonometry (the NOAA Fourier approximation).
Floating-point trigonometry has no exact shallow embedding, so the
equation-of-time value enters `mapApparentSolarToBucket` as an explicit
rational parameter, and every theorem below holds for every value of that
parameter — which covers whatever the Float computation returns. -/

/-- Clock configuration (timezone omitted: only the local clock reads it). -/
structure ClockConfig where
  latitude : ℚ
  longitude : ℚ

/-- Milliseconds into the UTC day, as the `getUTCHours/Minutes/Seconds/
Milliseconds` decomposition produces. -/
def utcMsIntoDay (tsMs : Int) : Int := tsMs % 86400000

/-- `date.getUTCDay()`: 0 = Sunday convention. -/
def jsUtcDay (tsMs : Int) : Int := (tsMs / 86400000 + 4) % 7

/-- One backward day step of the source's wrap loop
(`finalDayOfWeek === 0 ? 6 : finalDayOfWeek - 1`). -/
def decDayOfWeek (day : Int) : Int := if day = 0 then 6 else day - 1

/-- One forward day step of the source's wrap loop
(`finalDayOfWeek === 6 ? 0 : finalDayOfWeek + 1`). -/
def incDayOfWeek (day : Int) : Int := if day = 6 then 0 else day + 1

/-- The source's `while (ms < 0) { ms += msPerDay; day-- }` loop, realized
with fuel that dominates its iteration count. -/
def wrapNegLoop : Nat → ℚ → Int → ℚ × Int
  | 0, x, day => (x, day)
  | fuel + 1, x, day =>
    if x < 0 then wrapNegLoop fuel (x + 86400000) (decDayOfWeek day) else (x, day)

/-- The source's `while (ms >= msPerDay) { ms -= msPerDay; day++ }` loop. -/
def wrapPosLoop : Nat → ℚ → Int → ℚ × Int
  | 0, x, day => (x, day)
  | fuel + 1, x, day =>
    if x ≥ 86400000 then wrapPosLoop fuel (x - 86400000) (incDayOfWeek day) else (x, day)

/-- Enough fuel for either wrap loop starting from value `x`. -/
def wrapFuel (x : ℚ) : Nat := (Int.toNat ⌈|x| / 86400000⌉) + 1

/-- Both wrap loops in sequence, as the source runs them. -/
def normalizeMsIntoDay (x : ℚ) (day : Int) : ℚ × Int :=
  let p := wrapNegLoop (wrapFuel x) x day
  wrapPosLoop (wrapFuel p.1) p.1 p.2

/-- JavaScript number truncation (`Math.trunc`, the rounding of `%`). -/
def ratTrunc (x : ℚ) : Int := if x < 0 then ⌈x⌉ else ⌊x⌋

/-- JavaScript `%` on numbers: remainder with the sign of the dividend. -/
def jsMod (x y : ℚ) : ℚ := x - y * (ratTrunc (x / y) : ℚ)

/-- `mapMeanSolarToBucket`: UTC plus longitude offset, day-wrapped, truncated
to minute resolution and converted to a bucket. -/
def mapMeanSolarToBucket (tsMs : Int) (config : ClockConfig) : Except String (Option Int) :=
  if |config.latitude| = 90 then .ok none
  else
    let jsDay := jsUtcDay tsMs
    let dayOfWeek := if jsDay = 0 then 6 else jsDay - 1
    let msIntoDay : ℚ := (utcMsIntoDay tsMs : ℚ)
    let longitudeOffsetMs : ℚ := config.longitude / 15 * 3600000
    let nd := normalizeMsIntoDay (msIntoDay + longitudeOffsetMs) dayOfWeek
    let meanSolarHours := ⌊nd.1 / 3600000⌋
    let meanSolarMinutes := ⌊jsMod nd.1 3600000 / 60000⌋
    match dayAndMinutesToBucketId nd.2 (meanSolarHours * 60 + meanSolarMinutes) with
    | .error e => .error e
    | .ok b => .ok (some b)

/-- `mapApparentSolarToBucket`: mean solar plus the equation of time, with
the day wrap re-applied; `eqTimeMinutes` abstracts the Float `equationOfTime`
result (see the section comment). -/
def mapApparentSolarToBucket (tsMs : Int) (config : ClockConfig) (eqTimeMinutes : ℚ) :
    Except String (Option Int) :=
  if |config.latitude| = 90 then .ok none
  else
    match mapMeanSolarToBucket tsMs config with
    | .error e => .error e
    | .ok none => .ok none
    | .ok (some _) =>
      let jsDay := jsUtcDay tsMs
      let dayOfWeek := if jsDay = 0 then 6 else jsDay - 1
      let msIntoDay : ℚ := (utcMsIntoDay tsMs : ℚ)
      let longitudeOffsetMs : ℚ := config.longitude / 15 * 3600000
      let nd := normalizeMsIntoDay (msIntoDay + longitudeOffsetMs) dayOfWeek
      let eqTimeMs := eqTimeMinutes * 60000
      let nd2 := normalizeMsIntoDay (nd.1 + eqTimeMs) nd.2
      let apparentSolarHours := ⌊nd2.1 / 3600000⌋
      let apparentSolarMinutes := ⌊jsMod nd2.1 3600000 / 60000⌋
      match dayAndMinutesToBucketId nd2.2 (apparentSolarHours * 60 + apparentSolarMinutes) with
      | .error e => .error e
      | .ok b => .ok (some b)

/-! ### Helper lemmas for the solar mappers -/

lemma decDayOfWeek_range (day : Int) (h0 : 0 ≤ day) (h6 : day ≤ 6) :
    0 ≤ decDayOfWeek day ∧ decDayOfWeek day ≤ 6 := by
  rw [decDayOfWeek]
  split <;> omega

lemma incDayOfWeek_range (day : Int) (h0 : 0 ≤ day) (h6 : day ≤ 6) :
    0 ≤ incDayOfWeek day ∧ incDayOfWeek day ≤ 6 := by
  rw [incDayOfWeek]
  split <;> omega

lemma wrapNegLoop_day (fuel : Nat) (x : ℚ) (day : Int) (h0 : 0 ≤ day) (h6 : day ≤ 6) :
    0 ≤ (wrapNegLoop fuel x day).2 ∧ (wrapNegLoop fuel x day).2 ≤ 6 := by
  induction fuel generalizing x day with
  | zero => exact ⟨h0, h6⟩
  | succ fuel ih =>
    rw [wrapNegLoop]
    split
    · obtain ⟨g0, g6⟩ := decDayOfWeek_range day h0 h6
      exact ih _ _ g0 g6
    · exact ⟨h0, h6⟩

lemma wrapPosLoop_day (fuel : Nat) (x : ℚ) (day : Int) (h0 : 0 ≤ day) (h6 : day ≤ 6) :
    0 ≤ (wrapPosLoop fuel x day).2 ∧ (wrapPosLoop fuel x day).2 ≤ 6 := by
  induction fuel generalizing x day with
  | zero => exact ⟨h0, h6⟩
  | succ fuel ih =>
    rw [wrapPosLoop]
    split
    · obtain ⟨g0, g6⟩ := incDayOfWeek_range day h0 h6
      exact ih _ _ g0 g6
    · exact ⟨h0, h6⟩

lemma wrapNegLoop_nonneg (fuel : Nat) (x : ℚ) (day : Int)
    (hfuel : (Int.toNat ⌈-x / 86400000⌉) ≤ fuel) : 0 ≤ (wrapNegLoop fuel x day).1 := by
  induction fuel generalizing x day with
  | zero =>
    have h1 : ⌈-x / 86400000⌉ ≤ 0 := by omega
    have h2 : -x / 86400000 ≤ 0 := by
      have := Int.ceil_le.mp h1
      exact_mod_cast this
    have h3 : -x ≤ 0 := by
      by_contra h4
      push_neg at h4
      have : 0 < -x / 86400000 := div_pos h4 (by norm_num)
      linarith
    rw [wrapNegLoop]
    simpa using h3
  | succ fuel ih =>
    rw [wrapNegLoop]
    split
    · apply ih
      have hx : -(x + 86400000) / 86400000 = -x / 86400000 - 1 := by ring
      have hceil : ⌈-(x + 86400000) / 86400000⌉ = ⌈-x / 86400000⌉ - 1 := by
        rw [hx, Int.ceil_sub_one]
      have hpos : 0 < ⌈-x / 86400000⌉ := by
        rw [Int.lt_ceil]
        push_cast
        apply div_pos _ (by norm_num)
        linarith
      omega
    · linarith

lemma wrapNegLoop_lt (fuel : Nat) (x : ℚ) (day : Int) (h : x < 86400000) :
    (wrapNegLoop fuel x day).1 < 86400000 := by
  induction fuel generalizing x day with
  | zero => exact h
  | succ fuel ih =>
    rw [wrapNegLoop]
    split
    · apply ih
      linarith
    · exact h

lemma wrapPosLoop_bounds (fuel : Nat) (x : ℚ) (day : Int) (hx : 0 ≤ x)
    (hfuel : (Int.toNat ⌊x / 86400000⌋) ≤ fuel) :
    0 ≤ (wrapPosLoop fuel x day).1 ∧ (wrapPosLoop fuel x day).1 < 86400000 := by
  induction fuel generalizing x day with
  | zero =>
    have h1 : ⌊x / 86400000⌋ ≤ 0 := by omega
    have h2 : x / 86400000 < ⌊x / 86400000⌋ + 1 := Int.lt_floor_add_one _
    have h3 : x / 86400000 < 1 := by
      have : ((⌊x / 86400000⌋ : ℚ) + 1) ≤ 1 := by
        have : (⌊x / 86400000⌋ : ℚ) ≤ 0 := by exact_mod_cast h1
        linarith
      linarith
    have h4 : x < 86400000 := by
      rw [div_lt_iff (by norm_num)] at h3
      linarith
    rw [wrapPosLoop]
    exact ⟨hx, h4⟩
  | succ fuel ih =>
    rw [wrapPosLoop]
    split
    · apply ih
      · linarith
      · have hx2 : (x - 86400000) / 86400000 = x / 86400000 - 1 := by ring
        have hfloor : ⌊(x - 86400000) / 86400000⌋ = ⌊x / 86400000⌋ - 1 := by
          rw [hx2, Int.floor_sub_one]
        have hge : 1 ≤ ⌊x / 86400000⌋ := by
          rw [Int.le_floor]
          rw [le_div_iff (by norm_num)]
          push_cast
          linarith
        omega
    · refine ⟨hx, ?_⟩
      linarith

lemma wrapFuel_neg_sufficient (x : ℚ) : (Int.toNat ⌈-x / 86400000⌉) ≤ wrapFuel x := by
  rw [wrapFuel]
  have hmono : ⌈-x / 86400000⌉ ≤ ⌈|x| / 86400000⌉ := by
    apply Int.ceil_le_ceil
    apply div_le_div_of_nonneg_right _ (by norm_num)
    exact neg_le_abs x
  omega

lemma wrapFuel_pos_sufficient (y : ℚ) : (Int.toNat ⌊y / 86400000⌋) ≤ wrapFuel y := by
  rw [wrapFuel]
  have hmono : ⌊y / 86400000⌋ ≤ ⌈|y| / 86400000⌉ := by
    calc ⌊y / 86400000⌋ ≤ ⌈y / 86400000⌉ := Int.floor_le_ceil _
      _ ≤ ⌈|y| / 86400000⌉ := by
          apply Int.ceil_le_ceil
          apply div_le_div_of_nonneg_right _ (by norm_num)
          exact le_abs_self _
  omega

lemma normalizeMsIntoDay_bounds (x : ℚ) (day : Int) (h0 : 0 ≤ day) (h6 : day ≤ 6) :
    0 ≤ (normalizeMsIntoDay x day).1 ∧ (normalizeMsIntoDay x day).1 < 86400000 ∧
    0 ≤ (normalizeMsIntoDay x day).2 ∧ (normalizeMsIntoDay x day).2 ≤ 6 := by
  have h1 := wrapNegLoop_nonneg (wrapFuel x) x day (wrapFuel_neg_sufficient x)
  have h2 := wrapNegLoop_day (wrapFuel x) x day h0 h6
  have h3 := wrapPosLoop_bounds (wrapFuel (wrapNegLoop (wrapFuel x) x day).1)
    (wrapNegLoop (wrapFuel x) x day).1 (wrapNegLoop (wrapFuel x) x day).2 h1
    (wrapFuel_pos_sufficient _)
  have h4 := wrapPosLoop_day (wrapFuel (wrapNegLoop (wrapFuel x) x day).1)
    (wrapNegLoop (wrapFuel x) x day).1 (wrapNegLoop (wrapFuel x) x day).2 h2.1 h2.2
  rw [normalizeMsIntoDay]
  exact ⟨h3.1, h3.2, h4.1, h4.2⟩

lemma jsMod_bounds (x y : ℚ) (hx : 0 ≤ x) (hy : 0 < y) : 0 ≤ jsMod x y ∧ jsMod x y < y := by
  have hdiv : 0 ≤ x / y := div_nonneg hx hy.le
  rw [jsMod, ratTrunc, if_neg (not_lt.mpr hdiv)]
  constructor
  · have h2 : (⌊x / y⌋ : ℚ) * y ≤ x := by
      rw [← le_div_iff₀ hy]
      exact Int.floor_le _
    rw [mul_comm] at h2
    linarith
  · have h2 : x < ((⌊x / y⌋ : ℚ) + 1) * y := by
      rw [← div_lt_iff₀ hy]
      exact Int.lt_floor_add_one _
    rw [add_mul, one_mul, mul_comm] at h2
    linarith

lemma hoursMinutes_range (x : ℚ) (h0 : 0 ≤ x) (h1 : x < 86400000) :
    0 ≤ ⌊x / 3600000⌋ * 60 + ⌊jsMod x 3600000 / 60000⌋ ∧
    ⌊x / 3600000⌋ * 60 + ⌊jsMod x 3600000 / 60000⌋ ≤ 1439 := by
  have hh0 : 0 ≤ ⌊x / 3600000⌋ := Int.floor_nonneg.mpr (div_nonneg h0 (by norm_num))
  have hh1 : ⌊x / 3600000⌋ < 24 := by
    rw [Int.floor_lt]
    rw [div_lt_iff₀ (by norm_num)]
    push_cast
    linarith
  obtain ⟨hm0, hm1⟩ := jsMod_bounds x 3600000 h0 (by norm_num)
  have hmin0 : 0 ≤ ⌊jsMod x 3600000 / 60000⌋ :=
    Int.floor_nonneg.mpr (div_nonneg hm0 (by norm_num))
  have hmin1 : ⌊jsMod x 3600000 / 60000⌋ < 60 := by
    rw [Int.floor_lt, div_lt_iff₀ (by norm_num)]
    push_cast
    linarith
  omega

lemma jsUtcDay_range (tsMs : Int) : 0 ≤ jsUtcDay tsMs ∧ jsUtcDay tsMs ≤ 6 := by
  rw [jsUtcDay]
  omega

lemma mapMeanSolarToBucket_some (tsMs : Int) (config : ClockConfig)
    (h : |config.latitude| ≠ 90) :
    ∃ b, 0 ≤ b ∧ b ≤ 2015 ∧ mapMeanSolarToBucket tsMs config = .ok (some b) := by
  simp only [mapMeanSolarToBucket]
  rw [if_neg h]
  obtain ⟨hj0, hj6⟩ := jsUtcDay_range tsMs
  have hday : 0 ≤ (if jsUtcDay tsMs = 0 then 6 else jsUtcDay tsMs - 1) ∧
      (if jsUtcDay tsMs = 0 then 6 else jsUtcDay tsMs - 1) ≤ 6 := by
    split <;> omega
  obtain ⟨hx0, hx1, hd0, hd6⟩ := normalizeMsIntoDay_bounds
    ((utcMsIntoDay tsMs : ℚ) + config.longitude / 15 * 3600000)
    (if jsUtcDay tsMs = 0 then 6 else jsUtcDay tsMs - 1) hday.1 hday.2
  obtain ⟨hmi0, hmi1⟩ := hoursMinutes_range _ hx0 hx1
  rw [dayAndMinutesToBucketId, if_neg (by omega), if_neg (by omega)]
  simp only [BUCKETS_PER_DAY, BUCKET_MINUTES]
  exact ⟨_, by omega, by omega, rfl⟩

lemma mapApparentSolarToBucket_some (tsMs : Int) (config : ClockConfig) (eqTimeMinutes : ℚ)
    (h : |config.latitude| ≠ 90) :
    ∃ b, 0 ≤ b ∧ b ≤ 2015
      ∧ mapApparentSolarToBucket tsMs config eqTimeMinutes = .ok (some b) := by
  obtain ⟨b0, _, _, hmean⟩ := mapMeanSolarToBucket_some tsMs config h
  simp only [mapApparentSolarToBucket]
  rw [if_neg h]
  simp only [hmean]
  obtain ⟨hj0, hj6⟩ := jsUtcDay_range tsMs
  have hday : 0 ≤ (if jsUtcDay tsMs = 0 then 6 else jsUtcDay tsMs - 1) ∧
      (if jsUtcDay tsMs = 0 then 6 else jsUtcDay tsMs - 1) ≤ 6 := by
    split <;> omega
  obtain ⟨hx0, hx1, hd0, hd6⟩ := normalizeMsIntoDay_bounds
    ((utcMsIntoDay tsMs : ℚ) + config.longitude / 15 * 3600000)
    (if jsUtcDay tsMs = 0 then 6 else jsUtcDay tsMs - 1) hday.1 hday.2
  obtain ⟨hy0, hy1, he0, he6⟩ := normalizeMsIntoDay_bounds
    ((normalizeMsIntoDay ((utcMsIntoDay tsMs : ℚ) + config.longitude / 15 * 3600000)
        (if jsUtcDay tsMs = 0 then 6 else jsUtcDay tsMs - 1)).1 + eqTimeMinutes * 60000)
    (normalizeMsIntoDay ((utcMsIntoDay tsMs : ℚ) + config.longitude / 15 * 3600000)
        (if jsUtcDay tsMs = 0 then 6 else jsUtcDay tsMs - 1)).2 hd0 hd6
  obtain ⟨hmi0, hmi1⟩ := hoursMinutes_range _ hy0 hy1
  rw [dayAndMinutesToBucketId, if_neg (by omega), if_neg (by omega)]
  simp only [BUCKETS_PER_DAY, BUCKET_MINUTES]
  exact ⟨_, by omega, by omega, rfl⟩

/-- Claim C6: `mapMeanSolarToBucket` and `mapApparentSolarToBucket` return
undefined (the explicit non-error "no bucket" value) if and only if the
configured latitude's absolute value equals 90 exactly; for every other
latitude — including values arbitrarily close to 90 — they return a bucket
id in [0, 2015], for every timestamp, every longitude, and every value of
the equation-of-time term. -/
theorem claim_C6_pole_condition (tsMs : Int) (latitude longitude eqTimeMinutes : ℚ) :
    (mapMeanSolarToBucket tsMs ⟨latitude, longitude⟩ = .ok none ↔ |latitude| = 90) ∧
    (mapApparentSolarToBucket tsMs ⟨latitude, longitude⟩ eqTimeMinutes = .ok none
      ↔ |latitude| = 90) ∧
    (|latitude| ≠ 90 → ∃ b, 0 ≤ b ∧ b ≤ 2015 ∧
      mapMeanSolarToBucket tsMs ⟨latitude, longitude⟩ = .ok (some b)) ∧
    (|latitude| ≠ 90 → ∃ b, 0 ≤ b ∧ b ≤ 2015 ∧
      mapApparentSolarToBucket tsMs ⟨latitude, longitude⟩ eqTimeMinutes = .ok (some b)) := by
  refine ⟨⟨?_, ?_⟩, ⟨?_, ?_⟩, ?_, ?_⟩
  · intro heq
    by_contra hne
    obtain ⟨b, _, _, hb⟩ := mapMeanSolarToBucket_some tsMs ⟨latitude, longitude⟩ hne
    rw [hb] at heq
    exact absurd heq (by simp)
  · intro h90
    rw [mapMeanSolarToBucket]
    rw [if_pos h90]
  · intro heq
    by_contra hne
    obtain ⟨b, _, _, hb⟩ := mapApparentSolarToBucket_some tsMs ⟨latitude, longitude⟩
      eqTimeMinutes hne
    rw [hb] at heq
    exact absurd heq (by simp)
  · intro h90
    rw [mapApparentSolarToBucket]
    rw [if_pos h90]
  · exact mapMeanSolarToBucket_some tsMs ⟨latitude, longitude⟩
  · exact mapApparentSolarToBucket_some tsMs ⟨latitude, longitude⟩ eqTimeMinutes

/-- Witness for C6 at tsMs = 0 (a Thursday midnight), latitude 0,
longitude 0: the mean solar mapper returns a bucket. -/
theorem claim_C6_pole_condition_witness :
    ∃ b, 0 ≤ b ∧ b ≤ 2015 ∧ mapMeanSolarToBucket 0 ⟨0, 0⟩ = .ok (some b) :=
  (claim_C6_pole_condition 0 0 0 0).2.2.1 (by norm_num)
